import Mathlib

/-
Verification development for the degenbot Uniswap V3 liquidity-pool mirror.

The definitions below are a shallow embedding of the Python sources:
  * `src/degenbot/uniswap/v3_liquidity_pool.py` (class `V3LiquidityPool`):
    the swap-simulation loop `_calculate_swap`, the reconciler
    `external_update`, the archive operations `discard_states_before_block`
    and `restore_state_before_block`, and the wrappers
    `calculate_tokens_in_from_tokens_out` / `_fetch_tick_data_at_word`.
  * `src/degenbot/uniswap/v3_libraries/swap_math.py` (`computeSwapStep`).

Python dictionaries are embedded as association lists in insertion order,
Python's unbounded integers as `Int`/`Nat`, and raised exceptions as
`Except` error values.  Library helpers that the pool calls but whose
sources are not part of this tree (TickBitmap, TickMath constants,
to_int256, LiquidityMath.addDelta, get_tick_word_and_bit_position) are
modelled from the specification; the remaining fixed-point primitives
(FullMath / SqrtPriceMath) are taken as an abstract parameter record, so
every theorem quantifying over them holds for the real implementations.
-/

/-! ## Association-list embedding of Python dicts -/

/-- Lookup in an association list, mirroring `d[k]` / `d.get(k)` on a
Python dict (first — and only — binding of the key wins). -/
def kvLookup {α : Type} (l : List (Int × α)) (k : Int) : Option α :=
  match l with
  | [] => none
  | kv :: rest => if kv.1 = k then some kv.2 else kvLookup rest k

/-- Store `d[k] = v` on a Python dict: replace the existing binding in
place, else append a new binding at the end (insertion order). -/
def kvInsert {α : Type} (l : List (Int × α)) (k : Int) (v : α) : List (Int × α) :=
  match l with
  | [] => [(k, v)]
  | kv :: rest => if kv.1 = k then (k, v) :: rest else kv :: kvInsert rest k v

/-- Delete `del d[k]` on a Python dict (removes the binding if present). -/
def kvErase {α : Type} (l : List (Int × α)) (k : Int) : List (Int × α) :=
  match l with
  | [] => []
  | kv :: rest => if kv.1 = k then rest else kv :: kvErase rest k

theorem kvLookup_kvInsert_self {α : Type} (l : List (Int × α)) (k : Int) (v : α) :
    kvLookup (kvInsert l k v) k = some v := by
  induction l with
  | nil => simp [kvInsert, kvLookup]
  | cons kv rest ih =>
    by_cases h : kv.1 = k
    · simp [kvInsert, kvLookup, h]
    · simp [kvInsert, kvLookup, h, ih]

theorem kvLookup_kvInsert_ne {α : Type} (l : List (Int × α)) (k k' : Int) (v : α)
    (h : k ≠ k') : kvLookup (kvInsert l k v) k' = kvLookup l k' := by
  induction l with
  | nil => simp [kvInsert, kvLookup, h]
  | cons kv rest ih =>
    by_cases hk : kv.1 = k
    · simp [kvInsert, kvLookup, hk, h]
    · by_cases hk' : kv.1 = k'
      · simp [kvInsert, kvLookup, hk, hk', Ne.symm h]
      · simp [kvInsert, kvLookup, hk, hk', ih]

/-- A Python dict never holds two bindings for one key; association lists
produced by the embedding satisfy this invariant. -/
def kvNodup {α : Type} (l : List (Int × α)) : Prop :=
  (l.map Prod.fst).Nodup

instance {α : Type} (l : List (Int × α)) : Decidable (kvNodup l) :=
  inferInstanceAs (Decidable (l.map Prod.fst).Nodup)

theorem kvLookup_eq_none_of_not_mem {α : Type} (l : List (Int × α)) (k : Int)
    (h : k ∉ l.map Prod.fst) : kvLookup l k = none := by
  induction l with
  | nil => simp [kvLookup]
  | cons kv rest ih =>
    simp only [List.map_cons, List.mem_cons, not_or] at h
    have hne : kv.1 ≠ k := fun hc => h.1 hc.symm
    simp only [kvLookup, if_neg hne]
    exact ih h.2

theorem kvLookup_kvErase_self {α : Type} (l : List (Int × α)) (k : Int)
    (hl : kvNodup l) : kvLookup (kvErase l k) k = none := by
  induction l with
  | nil => simp [kvErase, kvLookup]
  | cons kv rest ih =>
    simp only [kvNodup, List.map_cons, List.nodup_cons] at hl
    by_cases hk : kv.1 = k
    · subst hk
      simp only [kvErase, if_pos rfl]
      exact kvLookup_eq_none_of_not_mem rest kv.1 hl.1
    · simp only [kvErase, if_neg hk, kvLookup, if_neg hk]
      exact ih hl.2

theorem kvInsert_mem_cases {α : Type} (l : List (Int × α)) (k : Int) (v : α)
    (x : Int × α) (hx : x ∈ kvInsert l k v) : x ∈ l ∨ x = (k, v) := by
  induction l with
  | nil => simpa [kvInsert] using hx
  | cons kv rest ih =>
    by_cases hk : kv.1 = k
    · simp only [kvInsert, if_pos hk, List.mem_cons] at hx
      rcases hx with rfl | hx
      · exact Or.inr rfl
      · exact Or.inl (List.mem_cons_of_mem _ hx)
    · simp only [kvInsert, if_neg hk, List.mem_cons] at hx
      rcases hx with rfl | hx
      · exact Or.inl (List.mem_cons_self _ _)
      · rcases ih hx with hm | rfl
        · exact Or.inl (List.mem_cons_of_mem _ hm)
        · exact Or.inr rfl

theorem kvErase_subset {α : Type} (l : List (Int × α)) (k : Int)
    {x : Int × α} (hx : x ∈ kvErase l k) : x ∈ l := by
  induction l with
  | nil => simpa [kvErase] using hx
  | cons kv rest ih =>
    by_cases hk : kv.1 = k
    · simp only [kvErase, if_pos hk] at hx
      exact List.mem_cons_of_mem _ hx
    · simp only [kvErase, if_neg hk, List.mem_cons] at hx
      rcases hx with rfl | hx
      · exact List.mem_cons_self _ _
      · exact List.mem_cons_of_mem _ (ih hx)

theorem kvNodup_kvInsert {α : Type} (l : List (Int × α)) (k : Int) (v : α)
    (hl : kvNodup l) : kvNodup (kvInsert l k v) := by
  induction l with
  | nil => simp [kvInsert, kvNodup]
  | cons kv rest ih =>
    simp only [kvNodup, List.map_cons, List.nodup_cons] at hl
    by_cases hk : kv.1 = k
    · subst hk
      simpa [kvInsert, kvNodup] using hl
    · have hrest := ih hl.2
      simp only [kvInsert, if_neg hk, kvNodup, List.map_cons, List.nodup_cons]
      refine ⟨?_, hrest⟩
      intro hc
      rcases List.mem_map.mp hc with ⟨x, hx, hx1⟩
      rcases kvInsert_mem_cases rest k v x hx with hmem | rfl
      · exact hl.1 (List.mem_map.mpr ⟨x, hmem, hx1⟩)
      · exact hk hx1.symm

theorem kvNodup_kvErase {α : Type} (l : List (Int × α)) (k : Int)
    (hl : kvNodup l) : kvNodup (kvErase l k) := by
  induction l with
  | nil => simpa [kvErase] using hl
  | cons kv rest ih =>
    simp only [kvNodup, List.map_cons, List.nodup_cons] at hl
    by_cases hk : kv.1 = k
    · simpa [kvErase, hk] using hl.2
    · simp only [kvErase, if_neg hk, kvNodup, List.map_cons, List.nodup_cons]
      refine ⟨?_, ih hl.2⟩
      intro hc
      rcases List.mem_map.mp hc with ⟨x, hx, hx1⟩
      exact hl.1 (List.mem_map.mpr ⟨x, kvErase_subset rest k hx, hx1⟩)

theorem kvLookup_kvErase_ne {α : Type} (l : List (Int × α)) (k k' : Int)
    (h : k ≠ k') : kvLookup (kvErase l k) k' = kvLookup l k' := by
  induction l with
  | nil => simp [kvErase, kvLookup]
  | cons kv rest ih =>
    by_cases hk : kv.1 = k
    · simp [kvErase, kvLookup, hk, h, Ne.symm h]
    · by_cases hk' : kv.1 = k'
      · simp [kvErase, kvLookup, hk, hk', Ne.symm h]
      · simp [kvErase, kvLookup, hk, hk', ih]

/-! ## State archive (`_pool_state_archive`) and its operations

The archive is a Python dict from block number to pool-state snapshot,
with keys inserted in increasing block order; it is embedded as an
association list of `(block, state)` pairs in insertion order.  The type
of snapshots is irrelevant to the archive logic, so it stays generic. -/

inductive ArchiveErr : Type where
  | noPoolStateAvailable : ArchiveErr
deriving DecidableEq, Repr

/-- Mirrors `sorted(list(self._pool_state_archive.keys()))`. -/
def knownBlocks {σ : Type} (archive : List (Nat × σ)) : List Nat :=
  (archive.map Prod.fst).insertionSort (· ≤ ·)

/-- Mirrors `bisect.bisect_left` on a sorted list of keys: the insertion
point for `b`, i.e. the number of keys strictly below `b`. -/
def bisectLeft (l : List Nat) (b : Nat) : Nat :=
  l.countP (fun k => decide (k < b))

/-- Embedding of `V3LiquidityPool.discard_states_before_block`
(v3_liquidity_pool.py lines 1115-1137, archive part): computes the
bisection index of `block` in the sorted key list, returns unchanged when
the index is zero, raises `NoPoolStateAvailable` when the index equals
the key count, and otherwise deletes every key in the sorted prefix
before the index. -/
def discardStatesBeforeBlock {σ : Type} (archive : List (Nat × σ)) (block : Nat) :
    Except ArchiveErr (List (Nat × σ)) :=
  let ks := knownBlocks archive
  let i := bisectLeft ks block
  if i = 0 then .ok archive
  else if i = ks.length then .error .noPoolStateAvailable
  else .ok (archive.filter (fun kv => !decide (kv.1 ∈ ks.take i)))

/-- Embedding of `V3LiquidityPool.restore_state_before_block`
(v3_liquidity_pool.py lines 1139-1180, archive part): raises when the
bisection index is zero, is a no-op when it equals the key count, and
otherwise deletes every key in the sorted suffix from the index on and
reports the last remaining `(block, state)` pair, to which the live
state and recorded update block are reset. -/
def restoreStateBeforeBlock {σ : Type} (archive : List (Nat × σ)) (block : Nat) :
    Except ArchiveErr (List (Nat × σ) × Option (Nat × σ)) :=
  let ks := knownBlocks archive
  let i := bisectLeft ks block
  if i = 0 then .error .noPoolStateAvailable
  else if i = ks.length then .ok (archive, none)
  else
    let remaining := archive.filter (fun kv => !decide (kv.1 ∈ ks.drop i))
    .ok (remaining, remaining.getLast?)

theorem knownBlocks_sorted {σ : Type} (archive : List (Nat × σ)) :
    List.Sorted (· ≤ ·) (knownBlocks archive) :=
  List.sorted_insertionSort _ _

theorem mem_knownBlocks {σ : Type} (archive : List (Nat × σ)) (k : Nat) :
    k ∈ knownBlocks archive ↔ k ∈ archive.map Prod.fst :=
  (List.perm_insertionSort _ _).mem_iff

/-- In a `(· ≤ ·)`-sorted list the prefix of length `countP (· < b)` holds
exactly the elements strictly below `b`. -/
theorem mem_take_countP_lt {l : List Nat} (hs : List.Sorted (· ≤ ·) l) (b x : Nat) :
    x ∈ l.take (l.countP (fun k => decide (k < b))) ↔ x ∈ l ∧ x < b := by
  induction l with
  | nil => simp
  | cons a t ih =>
    rw [List.sorted_cons] at hs
    obtain ⟨ha, ht⟩ := hs
    by_cases hab : a < b
    · have : (a :: t).countP (fun k => decide (k < b))
          = t.countP (fun k => decide (k < b)) + 1 := by
        simp [List.countP_cons, hab]
      rw [this, List.take_succ_cons, List.mem_cons, ih ht, List.mem_cons]
      constructor
      · rintro (rfl | ⟨hm, hx⟩)
        · exact ⟨Or.inl rfl, hab⟩
        · exact ⟨Or.inr hm, hx⟩
      · rintro ⟨rfl | hm, hx⟩
        · exact Or.inl rfl
        · exact Or.inr ⟨hm, hx⟩
    · have h0 : (a :: t).countP (fun k => decide (k < b)) = 0 := by
        rw [List.countP_eq_zero]
        intro k hk
        rcases List.mem_cons.mp hk with rfl | hk'
        · simpa using hab
        · have := ha k hk'
          simp only [decide_eq_true_eq]
          omega
      rw [h0]
      simp only [List.take_zero, List.not_mem_nil, false_iff, not_and, List.mem_cons]
      rintro (rfl | hm)
      · omega
      · have := ha x hm
        omega

/-- Whenever `discard_states_before_block` succeeds, the surviving archive
is exactly the set of snapshots at blocks at or after `block`. -/
theorem discardStatesBeforeBlock_ok_eq {σ : Type} (archive : List (Nat × σ)) (block : Nat)
    (a' : List (Nat × σ)) (h : discardStatesBeforeBlock archive block = .ok a') :
    a' = archive.filter (fun kv => decide (block ≤ kv.1)) := by
  simp only [discardStatesBeforeBlock] at h
  by_cases h0 : bisectLeft (knownBlocks archive) block = 0
  · rw [if_pos h0] at h
    injection h with h
    subst h
    have hall : ∀ kv ∈ archive, block ≤ kv.1 := by
      intro kv hkv
      have hmem : kv.1 ∈ knownBlocks archive :=
        (mem_knownBlocks archive kv.1).mpr (List.mem_map_of_mem _ hkv)
      have := List.countP_eq_zero.mp h0 kv.1 hmem
      simp only [decide_eq_true_eq] at this
      omega
    exact (List.filter_eq_self.mpr (fun kv hkv => by simp [hall kv hkv])).symm
  · rw [if_neg h0] at h
    by_cases hlen : bisectLeft (knownBlocks archive) block = (knownBlocks archive).length
    · rw [if_pos hlen] at h
      exact absurd h (by simp)
    · rw [if_neg hlen] at h
      injection h with h
      subst h
      apply List.filter_congr
      intro kv hkv
      have hmem : kv.1 ∈ knownBlocks archive :=
        (mem_knownBlocks archive kv.1).mpr (List.mem_map_of_mem _ hkv)
      have htake := mem_take_countP_lt (knownBlocks_sorted archive) block kv.1
      simp only [bisectLeft] at htake ⊢
      by_cases hlt : kv.1 < block
      · simp [htake, hmem, hlt]
      · simp only [htake]
        simp [hlt]
        omega

theorem mem_of_getLast?_eq_some {α : Type} {l : List α} {a : α}
    (h : l.getLast? = some a) : a ∈ l := by
  rcases List.mem_getLast?_eq_getLast (Option.mem_def.mpr h) with ⟨hne, heq⟩
  rw [heq]
  exact List.getLast_mem hne

/-- Definition following the words of the prune claim, for refutation:
keep exactly the snapshots not strictly before the latest snapshot at or
before `block`; `none` models the claimed error case (no snapshot at or
before `block`). -/
def claimPruneResult {σ : Type} (archive : List (Nat × σ)) (block : Nat) :
    Option (List (Nat × σ)) :=
  let eligible := (knownBlocks archive).filter (fun k => decide (k ≤ block))
  match eligible.getLast? with
  | none => none
  | some m => some (archive.filter (fun kv => decide (m ≤ kv.1)))

/-- C4, amended: `discard_states_before_block` raises the
no-state-available error exactly when the archive is nonempty and every
snapshot is strictly before `block`; otherwise it succeeds and deletes
exactly the snapshots strictly before `block` (a no-op when none are). -/
theorem discard_states_before_block_amended {σ : Type}
    (archive : List (Nat × σ)) (block : Nat) :
    (archive ≠ [] ∧ (∀ kv ∈ archive, kv.1 < block) →
      discardStatesBeforeBlock archive block = .error .noPoolStateAvailable)
  ∧ ((archive = [] ∨ ∃ kv ∈ archive, block ≤ kv.1) →
      discardStatesBeforeBlock archive block
        = .ok (archive.filter (fun kv => decide (block ≤ kv.1)))) := by
  constructor
  · rintro ⟨hne, hall⟩
    have hks : ∀ x ∈ knownBlocks archive, x < block := by
      intro x hx
      rcases List.mem_map.mp ((mem_knownBlocks archive x).mp hx) with ⟨kv, hkv, rfl⟩
      exact hall kv hkv
    have hlen : bisectLeft (knownBlocks archive) block = (knownBlocks archive).length := by
      apply List.countP_eq_length.mpr
      intro x hx
      simpa using hks x hx
    have h0 : bisectLeft (knownBlocks archive) block ≠ 0 := by
      rw [hlen]
      intro hc
      have hperm := (List.perm_insertionSort (· ≤ ·) (archive.map Prod.fst)).length_eq
      simp only [knownBlocks] at hc
      rw [hc] at hperm
      have hmap : (archive.map Prod.fst).length = archive.length := List.length_map _ _
      exact hne (List.length_eq_zero.mp (by omega))
    simp only [discardStatesBeforeBlock]
    rw [if_neg h0, if_pos hlen]
  · intro h
    have hex : ∃ a', discardStatesBeforeBlock archive block = .ok a' := by
      rcases h with rfl | ⟨kv, hkv, hb⟩
      · exact ⟨[], by simp [discardStatesBeforeBlock, knownBlocks, bisectLeft]⟩
      · have hmem : kv.1 ∈ knownBlocks archive :=
          (mem_knownBlocks archive kv.1).mpr (List.mem_map_of_mem _ hkv)
        have hlen : bisectLeft (knownBlocks archive) block
            ≠ (knownBlocks archive).length := by
          intro hc
          have := List.countP_eq_length.mp hc kv.1 hmem
          simp only [decide_eq_true_eq] at this
          omega
        by_cases h0 : bisectLeft (knownBlocks archive) block = 0
        · exact ⟨archive, by simp only [discardStatesBeforeBlock]; rw [if_pos h0]⟩
        · refine ⟨archive.filter (fun kv => !decide (kv.1 ∈ (knownBlocks archive).take
            (bisectLeft (knownBlocks archive) block))), ?_⟩
          simp only [discardStatesBeforeBlock]
          rw [if_neg h0, if_neg hlen]
    rcases hex with ⟨a', ha'⟩
    rw [ha', discardStatesBeforeBlock_ok_eq archive block a' ha']

/-- C4, counterexample to the claim as stated: with snapshots at blocks
100, 101 and 105 and `block = 103`, the code deletes blocks 100 and 101,
while the claim prescribes deleting only the snapshots strictly before
the latest snapshot at or before 103 (block 101), i.e. keeping 101. -/
theorem discard_states_before_block_claim_counterexample :
    discardStatesBeforeBlock [(100, 0), (101, 0), (105, 0)] 103
      = Except.ok [(105, (0 : Nat))]
  ∧ claimPruneResult [(100, 0), (101, 0), (105, 0)] 103
      = some [(101, (0 : Nat)), (105, 0)]
  ∧ (Except.ok [(105, (0 : Nat))] : Except ArchiveErr (List (Nat × Nat)))
      ≠ Except.ok [(101, 0), (105, 0)] := by
  refine ⟨rfl, rfl, fun h => ?_⟩
  injection h with h
  exact absurd h (by decide)

/-- C4, witness: the amended prune behaviour at two concrete archives,
one succeeding, one raising. -/
theorem discard_states_before_block_amended_witness :
    discardStatesBeforeBlock [(100, 0), (101, 0), (105, 0)] 103
      = Except.ok ([(100, (0 : Nat)), (101, 0), (105, 0)].filter
          (fun kv => decide (103 ≤ kv.1)))
  ∧ discardStatesBeforeBlock [(100, (0 : Nat)), (101, 0)] 200
      = Except.error ArchiveErr.noPoolStateAvailable :=
  ⟨(discard_states_before_block_amended _ _).2 (Or.inr ⟨(105, 0), by decide, by decide⟩),
   (discard_states_before_block_amended _ _).1 ⟨by decide, by decide⟩⟩

/-- C5, amended: pruning at `B` removes only snapshots at blocks strictly
before `B`, so for any `B' ≥ B` the snapshot `restore_state_before_block`
at `B'` would restore to survives the prune whenever its block is at or
after `B`. -/
theorem prune_keeps_restore_target {σ : Type} (archive : List (Nat × σ))
    (B B' : Nat) (hBB' : B ≤ B') (a' rem : List (Nat × σ)) (k : Nat) (s : σ)
    (hprune : discardStatesBeforeBlock archive B = .ok a')
    (hrestore : restoreStateBeforeBlock archive B' = .ok (rem, some (k, s)))
    (hk : B ≤ k) : (k, s) ∈ a' := by
  have ha' := discardStatesBeforeBlock_ok_eq archive B a' hprune
  have hmem : (k, s) ∈ archive := by
    simp only [restoreStateBeforeBlock] at hrestore
    by_cases h0 : bisectLeft (knownBlocks archive) B' = 0
    · rw [if_pos h0] at hrestore
      exact absurd hrestore (by simp)
    · rw [if_neg h0] at hrestore
      by_cases hlen : bisectLeft (knownBlocks archive) B'
          = (knownBlocks archive).length
      · rw [if_pos hlen] at hrestore
        simp at hrestore
      · rw [if_neg hlen] at hrestore
        injection hrestore with hpair
        have hsnd := congrArg Prod.snd hpair
        have hfst := congrArg Prod.fst hpair
        simp only at hsnd hfst
        have hmemrem : (k, s) ∈ archive.filter
            (fun kv => !decide (kv.1 ∈ (knownBlocks archive).drop
              (bisectLeft (knownBlocks archive) B'))) :=
          mem_of_getLast?_eq_some hsnd
        exact List.mem_of_mem_filter hmemrem
  rw [ha']
  exact List.mem_filter.mpr ⟨hmem, by simpa using hk⟩

/-- C5, counterexample to the claim as stated: with snapshots at blocks
100, 101 and 105, restoring before block 104 targets the snapshot at
block 101, yet pruning at block 103 (and 104 ≥ 103) deletes it. -/
theorem prune_restore_claim_counterexample :
    restoreStateBeforeBlock [(100, 10), (101, 11), (105, 12)] 104
      = Except.ok ([(100, (10 : Nat)), (101, 11)], some (101, 11))
  ∧ discardStatesBeforeBlock [(100, 10), (101, 11), (105, 12)] 103
      = Except.ok [(105, (12 : Nat))]
  ∧ ((101, 11) : Nat × Nat) ∉ [((105, 12) : Nat × Nat)] := by
  refine ⟨rfl, rfl, by decide⟩

/-- C5, witness: a concrete archive where the restore target's block is
at or after the prune block, so it survives. -/
theorem prune_keeps_restore_target_witness :
    ((105, 9) : Nat × Nat) ∈ [((105, 9) : Nat × Nat), (120, 11)] :=
  prune_keeps_restore_target [(100, 7), (105, 9), (120, 11)] 103 110
    (by decide) [(105, 9), (120, 11)] [(100, 7), (105, 9)] 105 9
    rfl rfl (by decide)

/-! ## Pool data model

Embedding of the pool state carried by `V3LiquidityPool` together with
the attributes the reconciler and the swap loop read (`tick_spacing`,
`fee`, `sparse_liquidity_map`, `_update_block`, `_pool_state_archive`).
The `UniswapV3PoolState` value object is the five state fields below
(`PoolSnapshot`); the pool's property setters replace it wholesale. -/

/-- Embedding of `UniswapV3BitmapAtWord`: one 256-tick bitmap word plus
the block it was read at.  The dataclass defaults give an all-zero word.
Modelled from the spec (the `v3_types` module is not in the tree). -/
structure UniswapV3BitmapAtWord where
  bitmap : Nat
  block : Nat
deriving DecidableEq, Repr

/-- Embedding of `UniswapV3LiquidityAtTick`: per-tick net and gross
liquidity plus the block they were read at.  Modelled from the spec
(the `v3_types` module is not in the tree). -/
structure UniswapV3LiquidityAtTick where
  liquidityNet : Int
  liquidityGross : Int
  block : Nat
deriving DecidableEq, Repr

/-- Modelled from the spec: `get_tick_word_and_bit_position` derives the
compressed tick index by floor division of the tick by the spacing
(consistent across negative ticks, spec section 4.2). -/
def tickCompressed (spacing tick : Int) : Int :=
  Int.fdiv tick spacing

/-- Modelled from the spec: word index and bit position of a tick, the
compressed index split by floor division and remainder by 256. -/
def tickWordAndBit (spacing tick : Int) : Int × Nat :=
  (Int.fdiv (tickCompressed spacing tick) 256,
   (Int.emod (tickCompressed spacing tick) 256).toNat)

/-- Modelled from the spec: `TickBitmap.flipTick` toggles exactly one bit
of the tick's word and stamps the word's as-of block (spec section 4.2);
a missing word defaults to the empty word before the toggle. -/
def flipTick (tb : List (Int × UniswapV3BitmapAtWord)) (tick spacing : Int)
    (updateBlock : Nat) : List (Int × UniswapV3BitmapAtWord) :=
  let wb := tickWordAndBit spacing tick
  let cur := (kvLookup tb wb.1).getD ⟨0, 0⟩
  kvInsert tb wb.1 ⟨cur.bitmap ^^^ (1 <<< wb.2), updateBlock⟩

/-- The initialized bit a tick owns in the bitmap (false when its word is
absent). -/
def bitAtTick (tb : List (Int × UniswapV3BitmapAtWord)) (spacing tick : Int) : Bool :=
  let wb := tickWordAndBit spacing tick
  ((kvLookup tb wb.1).getD ⟨0, 0⟩).bitmap.testBit wb.2

/-- The five fields of the `UniswapV3PoolState` value object. -/
structure PoolSnapshot where
  liquidity : Int
  sqrt_price_x96 : Int
  tick : Int
  tick_bitmap : List (Int × UniswapV3BitmapAtWord)
  tick_data : List (Int × UniswapV3LiquidityAtTick)
deriving DecidableEq, Repr

/-- The pool attributes read and written by the embedded methods. -/
structure PoolModel where
  liquidity : Int
  sqrt_price_x96 : Int
  tick : Int
  tick_bitmap : List (Int × UniswapV3BitmapAtWord)
  tick_data : List (Int × UniswapV3LiquidityAtTick)
  tick_spacing : Int
  fee : Int
  sparse_liquidity_map : Bool
  update_block : Nat
  archive : Option (List (Nat × PoolSnapshot))
deriving DecidableEq, Repr

/-- The pool's current `UniswapV3PoolState` value. -/
def PoolModel.toSnapshot (p : PoolModel) : PoolSnapshot :=
  ⟨p.liquidity, p.sqrt_price_x96, p.tick, p.tick_bitmap, p.tick_data⟩

/-- Store into the (Nat-keyed) state archive, dict semantics. -/
def archInsert (l : List (Nat × PoolSnapshot)) (k : Nat) (v : PoolSnapshot) :
    List (Nat × PoolSnapshot) :=
  match l with
  | [] => [(k, v)]
  | kv :: rest => if kv.1 = k then (k, v) :: rest else kv :: archInsert rest k v

/-- The external chain-state provider, abstracted: given a word position
and a block number it yields the word's raw bitmap and the populated
ticks `(tick, liquidityNet, liquidityGross)` of that word. -/
structure ChainProvider where
  wordAt : Int → Nat → Nat × List (Int × Int × Int)

/-- Embedding of `V3LiquidityPool._fetch_tick_data_at_word` (lines
535-571): read the word's bitmap at the given block, read its populated
ticks when the bitmap is nonzero, then store the word and every fetched
tick entry into the pool's mappings. -/
def fetchTickDataAtWord (p : PoolModel) (prov : ChainProvider) (wordPos : Int)
    (blockNumber : Nat) : PoolModel :=
  let res := prov.wordAt wordPos blockNumber
  let ticks := if res.1 = 0 then [] else res.2
  { p with
    tick_bitmap := kvInsert p.tick_bitmap wordPos ⟨res.1, blockNumber⟩,
    tick_data := ticks.foldl
      (fun td t => kvInsert td t.1 ⟨t.2.1, t.2.2, blockNumber⟩) p.tick_data }

/-- Embedding of `UniswapV3PoolExternalUpdate`: each optional field
independently triggers a partial state change; `liquidity_change` is
`(liquidity_delta, lower_tick, upper_tick)`. -/
structure UniswapV3PoolExternalUpdate where
  block_number : Nat
  tick : Option Int
  liquidity : Option Int
  sqrt_price_x96 : Option Int
  liquidity_change : Option (Int × Int × Int)
deriving DecidableEq, Repr

inductive UpdateErr : Type where
  | externalUpdateError : UpdateErr
deriving DecidableEq, Repr

/-- The per-boundary-tick body of the `liquidity_change` branch of
`external_update` (v3_liquidity_pool.py lines 904-967): ensure the
tick's bitmap word is known (fetching it at the previous block when the
map is sparse, else synthesizing an empty word), read the tick's
net/gross liquidity or default both to zero and flip the tick's bit on a
missing entry, add the delta to the net liquidity at the lower tick and
subtract it at the upper tick, always add the delta to the gross
liquidity, then delete the entry and flip the bit when the new gross is
zero, else write the updated entry. -/
def applyLiquidityChangeAtTick (p : PoolModel) (prov : ChainProvider)
    (delta lowerTick tick : Int) (blockNumber : Nat) : PoolModel :=
  let w := (tickWordAndBit p.tick_spacing tick).1
  let p1 :=
    if (kvLookup p.tick_bitmap w).isSome then p
    else if p.sparse_liquidity_map then fetchTickDataAtWord p prov w (blockNumber - 1)
    else { p with tick_bitmap := kvInsert p.tick_bitmap w ⟨0, 0⟩ }
  let read := kvLookup p1.tick_data tick
  let tickLiquidityNet := (read.map (·.liquidityNet)).getD 0
  let tickLiquidityGross := (read.map (·.liquidityGross)).getD 0
  let p2 :=
    if read.isSome then p1
    else { p1 with tick_bitmap := flipTick p1.tick_bitmap tick p1.tick_spacing blockNumber }
  let newLiquidityNet :=
    if tick = lowerTick then tickLiquidityNet + delta else tickLiquidityNet - delta
  let newLiquidityGross := tickLiquidityGross + delta
  if newLiquidityGross = 0 then
    { p2 with
      tick_data := kvErase p2.tick_data tick,
      tick_bitmap := flipTick p2.tick_bitmap tick p2.tick_spacing blockNumber }
  else
    { p2 with tick_data :=
        kvInsert p2.tick_data tick ⟨newLiquidityNet, newLiquidityGross, blockNumber⟩ }

/-- The `update.tick` compare-and-set branch of `external_update`
(lines 874-877): overwrite the tick when present and different. -/
def applyTickField (p : PoolModel) (t? : Option Int) : Bool × PoolModel :=
  match t? with
  | some t => if t ≠ p.tick then (true, { p with tick := t }) else (false, p)
  | none => (false, p)

/-- The `update.liquidity` compare-and-set branch of `external_update`
(lines 879-882). -/
def applyLiquidityField (p : PoolModel) (l? : Option Int) : Bool × PoolModel :=
  match l? with
  | some lq => if lq ≠ p.liquidity then (true, { p with liquidity := lq }) else (false, p)
  | none => (false, p)

/-- The `update.sqrt_price_x96` compare-and-set branch of
`external_update` (lines 884-887). -/
def applySqrtPriceField (p : PoolModel) (s? : Option Int) : Bool × PoolModel :=
  match s? with
  | some sp =>
    if sp ≠ p.sqrt_price_x96 then (true, { p with sqrt_price_x96 := sp }) else (false, p)
  | none => (false, p)

/-- The `update.liquidity_change` branch of `external_update` (lines
889-976): skipped for an absent field or a zero delta; otherwise adjusts
in-range active liquidity when the current tick lies in
`[lower_tick, upper_tick)` and then processes the lower and upper
boundary ticks in order. -/
def applyLiquidityChangeField (p : PoolModel) (prov : ChainProvider)
    (lc? : Option (Int × Int × Int)) (blockNumber : Nat) : Bool × PoolModel :=
  match lc? with
  | some lc =>
    if lc.1 ≠ 0 then
      let p4 :=
        if lc.2.1 ≤ p.tick ∧ p.tick < lc.2.2 then
          { p with liquidity := p.liquidity + lc.1 }
        else p
      let p5 := applyLiquidityChangeAtTick p4 prov lc.1 lc.2.1 lc.2.1 blockNumber
      (true, applyLiquidityChangeAtTick p5 prov lc.1 lc.2.1 lc.2.2 blockNumber)
    else (false, p)
  | none => (false, p)

/-- Embedding of `V3LiquidityPool.external_update` (v3_liquidity_pool.py
lines 841-986): reject stale updates, apply each present field as a
compare-and-set, process a nonzero `liquidity_change`, and on any change
archive the new state under the update's block, publish one state-change
notification, and advance the recorded update block.  Returns the change
flag, the new pool, and the published snapshots. -/
def external_update (p : PoolModel) (u : UniswapV3PoolExternalUpdate)
    (prov : ChainProvider) : Except UpdateErr (Bool × PoolModel × List PoolSnapshot) :=
  if u.block_number < p.update_block then .error .externalUpdateError
  else
    let s1 := applyTickField p u.tick
    let s2 := applyLiquidityField s1.2 u.liquidity
    let s3 := applySqrtPriceField s2.2 u.sqrt_price_x96
    let s4 := applyLiquidityChangeField s3.2 prov u.liquidity_change u.block_number
    if s1.1 || s2.1 || s3.1 || s4.1 then
      .ok (true,
        { s4.2 with
          archive := s4.2.archive.map (fun a => archInsert a u.block_number s4.2.toSnapshot),
          update_block := u.block_number },
        [s4.2.toSnapshot])
    else .ok (false, s4.2, [])

theorem applyTickField_noop (p : PoolModel) (t? : Option Int)
    (h : t? = none ∨ t? = some p.tick) : applyTickField p t? = (false, p) := by
  rcases h with rfl | rfl <;> simp [applyTickField]

theorem applyLiquidityField_noop (p : PoolModel) (l? : Option Int)
    (h : l? = none ∨ l? = some p.liquidity) : applyLiquidityField p l? = (false, p) := by
  rcases h with rfl | rfl <;> simp [applyLiquidityField]

theorem applySqrtPriceField_noop (p : PoolModel) (s? : Option Int)
    (h : s? = none ∨ s? = some p.sqrt_price_x96) :
    applySqrtPriceField p s? = (false, p) := by
  rcases h with rfl | rfl <;> simp [applySqrtPriceField]

theorem applyLiquidityChangeField_noop (p : PoolModel) (prov : ChainProvider)
    (lc? : Option (Int × Int × Int)) (blockNumber : Nat)
    (h : lc? = none ∨ ∃ lu : Int × Int, lc? = some (0, lu.1, lu.2)) :
    applyLiquidityChangeField p prov lc? blockNumber = (false, p) := by
  rcases h with rfl | ⟨lu, rfl⟩ <;> simp [applyLiquidityChangeField]

/-- Truth of `isinstance(result, ok)` for an `Except` value. -/
def isOkE {ε α : Type} : Except ε α → Bool
  | .ok _ => true
  | .error _ => false

/-- C8: `external_update` raises `ExternalUpdateError` for every update
whose block number is strictly below the recorded update block, and an
update at or after the recorded block is never rejected by this check
(the method then runs to completion). -/
theorem external_update_stale_check (p : PoolModel) (u : UniswapV3PoolExternalUpdate)
    (prov : ChainProvider) :
    (u.block_number < p.update_block →
      external_update p u prov = .error .externalUpdateError)
  ∧ (p.update_block ≤ u.block_number →
      isOkE (external_update p u prov) = true) := by
  constructor
  · intro h
    simp only [external_update]
    rw [if_pos h]
  · intro h
    simp only [external_update]
    rw [if_neg (by omega : ¬ u.block_number < p.update_block)]
    split
    · rfl
    · rfl

/-- Concrete pool used by the stale-check witness. -/
def c8Pool : PoolModel :=
  { liquidity := 1000000, sqrt_price_x96 := 79228162514264337593543950336,
    tick := 0, tick_bitmap := [(0, ⟨1, 90⟩)], tick_data := [(0, ⟨50, 50, 90⟩)],
    tick_spacing := 60, fee := 3000, sparse_liquidity_map := false,
    update_block := 100, archive := some [(100, ⟨1000000, 79228162514264337593543950336, 0,
      [(0, ⟨1, 90⟩)], [(0, ⟨50, 50, 90⟩)]⟩)] }

/-- Provider returning an empty word, for runs that never fetch. -/
def trivialProvider : ChainProvider := ⟨fun _ _ => (0, [])⟩

/-- C8, witness: a stale update (block 99 < 100) is rejected and a fresh
update (block 101 ≥ 100) completes. -/
theorem external_update_stale_check_witness :
    external_update c8Pool ⟨99, some 1, none, none, none⟩ trivialProvider
      = .error .externalUpdateError
  ∧ isOkE (external_update c8Pool ⟨101, some 1, none, none, none⟩ trivialProvider) = true :=
  ⟨(external_update_stale_check c8Pool ⟨99, some 1, none, none, none⟩ trivialProvider).1
      (by decide),
   (external_update_stale_check c8Pool ⟨101, some 1, none, none, none⟩ trivialProvider).2
      (by decide)⟩

/-- C10, amended: an update at or after the recorded block all of whose
present fields equal the current values, with any `liquidity_change`
carrying a zero delta, returns `False`, leaves the whole pool (state,
recorded block, archive) untouched and publishes nothing. -/
theorem external_update_noop_amended (p : PoolModel) (u : UniswapV3PoolExternalUpdate)
    (prov : ChainProvider)
    (hb : p.update_block ≤ u.block_number)
    (ht : u.tick = none ∨ u.tick = some p.tick)
    (hl : u.liquidity = none ∨ u.liquidity = some p.liquidity)
    (hs : u.sqrt_price_x96 = none ∨ u.sqrt_price_x96 = some p.sqrt_price_x96)
    (hc : u.liquidity_change = none
        ∨ ∃ lu : Int × Int, u.liquidity_change = some (0, lu.1, lu.2)) :
    external_update p u prov = .ok (false, p, []) := by
  simp only [external_update]
  rw [if_neg (by omega : ¬ u.block_number < p.update_block)]
  rw [applyTickField_noop p u.tick ht]
  rw [applyLiquidityField_noop p u.liquidity hl]
  rw [applySqrtPriceField_noop p u.sqrt_price_x96 hs]
  rw [applyLiquidityChangeField_noop p prov u.liquidity_change u.block_number hc]
  simp

/-- Pool used by the no-op-update claim counterexample and witness. -/
def c10Pool : PoolModel :=
  { liquidity := 1000, sqrt_price_x96 := 123, tick := 5, tick_bitmap := [],
    tick_data := [], tick_spacing := 60, fee := 3000,
    sparse_liquidity_map := false, update_block := 100, archive := some [] }

/-- C10, counterexample to the claim as stated: a no-change update at a
stale block (99 < recorded 100) raises `ExternalUpdateError` instead of
returning `False`. -/
theorem external_update_noop_claim_counterexample :
    external_update c10Pool ⟨99, none, none, none, none⟩ trivialProvider
      = .error .externalUpdateError
  ∧ Except.error UpdateErr.externalUpdateError
      ≠ (Except.ok (false, c10Pool, ([] : List PoolSnapshot))
          : Except UpdateErr (Bool × PoolModel × List PoolSnapshot)) :=
  ⟨rfl, fun h => Except.noConfusion h⟩

/-- C10, witness: a fully redundant update (tick and sqrt price equal to
the current values, liquidity change with zero delta) at a fresh block
returns `False` and changes nothing. -/
theorem external_update_noop_amended_witness :
    external_update c10Pool ⟨100, some 5, none, some 123, some (0, -60, 60)⟩
      trivialProvider = .ok (false, c10Pool, []) :=
  external_update_noop_amended c10Pool _ trivialProvider (by decide)
    (Or.inr rfl) (Or.inl rfl) (Or.inr rfl) (Or.inr ⟨(-60, 60), rfl⟩)

/-! ## Characterization of the per-tick liquidity-change body -/

theorem kvLookup_kvInsert_isSome {α : Type} (l : List (Int × α)) (k k' : Int) (v : α)
    (h : (kvLookup l k').isSome = true) :
    (kvLookup (kvInsert l k v) k').isSome = true := by
  by_cases hk : k = k'
  · subst hk
    rw [kvLookup_kvInsert_self]
    rfl
  · rw [kvLookup_kvInsert_ne l k k' v hk]
    exact h

theorem flipTick_preserves_word {tb : List (Int × UniswapV3BitmapAtWord)}
    (t spacing : Int) (blk : Nat) (w : Int)
    (h : (kvLookup tb w).isSome = true) :
    (kvLookup (flipTick tb t spacing blk) w).isSome = true := by
  unfold flipTick
  exact kvLookup_kvInsert_isSome _ _ _ _ h

/-- Effect of `flipTick` on the bit any tick owns: toggled exactly when
the two ticks share a word and bit position, untouched otherwise. -/
theorem bitAtTick_flipTick (tb : List (Int × UniswapV3BitmapAtWord))
    (t t' spacing : Int) (blk : Nat) :
    bitAtTick (flipTick tb t' spacing blk) spacing t =
      (if tickWordAndBit spacing t' = tickWordAndBit spacing t then
        !(bitAtTick tb spacing t) else bitAtTick tb spacing t) := by
  simp only [bitAtTick, flipTick]
  by_cases hw : (tickWordAndBit spacing t').1 = (tickWordAndBit spacing t).1
  · rw [hw, kvLookup_kvInsert_self]
    by_cases hb : (tickWordAndBit spacing t').2 = (tickWordAndBit spacing t).2
    · have hpair : tickWordAndBit spacing t' = tickWordAndBit spacing t :=
        Prod.ext hw hb
      rw [if_pos hpair]
      simp only [Option.getD_some, hw, hb]
      rw [Nat.testBit_xor, Nat.shiftLeft_eq, one_mul, Nat.testBit_two_pow]
      simp [hb]
    · have hpair : tickWordAndBit spacing t' ≠ tickWordAndBit spacing t := by
        intro hc
        exact hb (congrArg Prod.snd hc)
      rw [if_neg hpair]
      simp only [Option.getD_some, hw]
      rw [Nat.testBit_xor, Nat.shiftLeft_eq, one_mul, Nat.testBit_two_pow]
      simp [hb]
  · have hpair : tickWordAndBit spacing t' ≠ tickWordAndBit spacing t := by
      intro hc
      exact hw (congrArg Prod.fst hc)
    rw [if_neg hpair, kvLookup_kvInsert_ne _ _ _ _ hw]

/-- The per-tick body when the tick's word is known, the tick has an
entry, and the new gross liquidity is nonzero: writes the updated entry
and leaves the bitmap alone. -/
theorem applyLCAtTick_present_nonzero (p : PoolModel) (prov : ChainProvider)
    (delta lowerTick t : Int) (blk : Nat) (e : UniswapV3LiquidityAtTick)
    (hword : (kvLookup p.tick_bitmap (tickWordAndBit p.tick_spacing t).1).isSome = true)
    (he : kvLookup p.tick_data t = some e)
    (hg : e.liquidityGross + delta ≠ 0) :
    applyLiquidityChangeAtTick p prov delta lowerTick t blk =
      { p with tick_data := (kvInsert p.tick_data t
          ⟨(if t = lowerTick then e.liquidityNet + delta else e.liquidityNet - delta),
           e.liquidityGross + delta, blk⟩) } := by
  simp only [applyLiquidityChangeAtTick]
  rw [if_pos hword, he]
  simp [hg]

/-- The per-tick body when the tick's word is known, the tick has an
entry, and the new gross liquidity is zero: deletes the entry and flips
the tick's bit. -/
theorem applyLCAtTick_present_zero (p : PoolModel) (prov : ChainProvider)
    (delta lowerTick t : Int) (blk : Nat) (e : UniswapV3LiquidityAtTick)
    (hword : (kvLookup p.tick_bitmap (tickWordAndBit p.tick_spacing t).1).isSome = true)
    (he : kvLookup p.tick_data t = some e)
    (hg : e.liquidityGross + delta = 0) :
    applyLiquidityChangeAtTick p prov delta lowerTick t blk =
      { p with
        tick_data := kvErase p.tick_data t,
        tick_bitmap := flipTick p.tick_bitmap t p.tick_spacing blk } := by
  simp only [applyLiquidityChangeAtTick]
  rw [if_pos hword, he]
  simp [hg]

/-- The per-tick body when the tick's word is known but the tick has no
entry and the delta is nonzero: flips the tick's bit (initialization)
and writes a fresh entry. -/
theorem applyLCAtTick_absent (p : PoolModel) (prov : ChainProvider)
    (delta lowerTick t : Int) (blk : Nat)
    (hword : (kvLookup p.tick_bitmap (tickWordAndBit p.tick_spacing t).1).isSome = true)
    (he : kvLookup p.tick_data t = none)
    (hd : delta ≠ 0) :
    applyLiquidityChangeAtTick p prov delta lowerTick t blk =
      { p with
        tick_data := (kvInsert p.tick_data t
          ⟨(if t = lowerTick then delta else -delta), delta, blk⟩),
        tick_bitmap := flipTick p.tick_bitmap t p.tick_spacing blk } := by
  simp only [applyLiquidityChangeAtTick]
  rw [if_pos hword, he]
  simp [hd]

theorem applyTickField_maps (p : PoolModel) (t? : Option Int) :
    (applyTickField p t?).2.tick_data = p.tick_data
  ∧ (applyTickField p t?).2.tick_bitmap = p.tick_bitmap
  ∧ (applyTickField p t?).2.tick_spacing = p.tick_spacing
  ∧ (applyTickField p t?).2.sparse_liquidity_map = p.sparse_liquidity_map
  ∧ (applyTickField p t?).2.update_block = p.update_block := by
  cases t? with
  | none => simp [applyTickField]
  | some t =>
    by_cases h : t ≠ p.tick <;> simp [applyTickField, h]

theorem applyLiquidityField_maps (p : PoolModel) (l? : Option Int) :
    (applyLiquidityField p l?).2.tick_data = p.tick_data
  ∧ (applyLiquidityField p l?).2.tick_bitmap = p.tick_bitmap
  ∧ (applyLiquidityField p l?).2.tick_spacing = p.tick_spacing
  ∧ (applyLiquidityField p l?).2.sparse_liquidity_map = p.sparse_liquidity_map
  ∧ (applyLiquidityField p l?).2.update_block = p.update_block := by
  cases l? with
  | none => simp [applyLiquidityField]
  | some lq =>
    by_cases h : lq ≠ p.liquidity <;> simp [applyLiquidityField, h]

theorem applySqrtPriceField_maps (p : PoolModel) (s? : Option Int) :
    (applySqrtPriceField p s?).2.tick_data = p.tick_data
  ∧ (applySqrtPriceField p s?).2.tick_bitmap = p.tick_bitmap
  ∧ (applySqrtPriceField p s?).2.tick_spacing = p.tick_spacing
  ∧ (applySqrtPriceField p s?).2.sparse_liquidity_map = p.sparse_liquidity_map
  ∧ (applySqrtPriceField p s?).2.update_block = p.update_block := by
  cases s? with
  | none => simp [applySqrtPriceField]
  | some sp =>
    by_cases h : sp ≠ p.sqrt_price_x96 <;> simp [applySqrtPriceField, h]

/-- Closed form of the per-tick body (word known, nonzero delta): the
tick entry is deleted exactly when the new gross liquidity is zero and
rewritten otherwise, and the bitmap is left alone exactly when the entry
existed and survives. -/
theorem applyLCAtTick_closed (p : PoolModel) (prov : ChainProvider)
    (delta lowerTick t : Int) (blk : Nat)
    (hd : delta ≠ 0)
    (hword : (kvLookup p.tick_bitmap (tickWordAndBit p.tick_spacing t).1).isSome = true) :
    (applyLiquidityChangeAtTick p prov delta lowerTick t blk).tick_data
      = (if ((kvLookup p.tick_data t).map (·.liquidityGross)).getD 0 + delta = 0
         then kvErase p.tick_data t
         else kvInsert p.tick_data t
           ⟨(if t = lowerTick
             then ((kvLookup p.tick_data t).map (·.liquidityNet)).getD 0 + delta
             else ((kvLookup p.tick_data t).map (·.liquidityNet)).getD 0 - delta),
            ((kvLookup p.tick_data t).map (·.liquidityGross)).getD 0 + delta, blk⟩)
  ∧ (applyLiquidityChangeAtTick p prov delta lowerTick t blk).tick_bitmap
      = (if (kvLookup p.tick_data t).isSome = true
            ∧ ((kvLookup p.tick_data t).map (·.liquidityGross)).getD 0 + delta ≠ 0
         then p.tick_bitmap
         else flipTick p.tick_bitmap t p.tick_spacing blk)
  ∧ (applyLiquidityChangeAtTick p prov delta lowerTick t blk).tick_spacing = p.tick_spacing
  ∧ (applyLiquidityChangeAtTick p prov delta lowerTick t blk).liquidity = p.liquidity := by
  rcases hl : kvLookup p.tick_data t with _ | e
  · have hz : ((kvLookup p.tick_data t).map (·.liquidityGross)).getD 0 + delta ≠ 0 := by
      rw [hl]
      simpa using hd
    rw [applyLCAtTick_absent p prov delta lowerTick t blk hword hl hd]
    simp [hz, hd]
  · by_cases hg : e.liquidityGross + delta = 0
    · rw [applyLCAtTick_present_zero p prov delta lowerTick t blk e hword hl hg]
      simp [hg]
    · rw [applyLCAtTick_present_nonzero p prov delta lowerTick t blk e hword hl hg]
      simp [hg]

/-- The tick's recorded net liquidity, defaulting to zero when the entry
is missing (the reconciler's read-or-default step). -/
def netAt (td : List (Int × UniswapV3LiquidityAtTick)) (t : Int) : Int :=
  ((kvLookup td t).map (·.liquidityNet)).getD 0

/-- The tick's recorded gross liquidity, defaulting to zero when the
entry is missing. -/
def grossAt (td : List (Int × UniswapV3LiquidityAtTick)) (t : Int) : Int :=
  ((kvLookup td t).map (·.liquidityGross)).getD 0

theorem netAt_def (td : List (Int × UniswapV3LiquidityAtTick)) (t : Int) :
    ((kvLookup td t).map (·.liquidityNet)).getD 0 = netAt td t := rfl

theorem grossAt_def (td : List (Int × UniswapV3LiquidityAtTick)) (t : Int) :
    ((kvLookup td t).map (·.liquidityGross)).getD 0 = grossAt td t := rfl

theorem netAt_congr (td td' : List (Int × UniswapV3LiquidityAtTick)) (t : Int)
    (h : kvLookup td t = kvLookup td' t) : netAt td t = netAt td' t := by
  simp [netAt, h]

theorem grossAt_congr (td td' : List (Int × UniswapV3LiquidityAtTick)) (t : Int)
    (h : kvLookup td t = kvLookup td' t) : grossAt td t = grossAt td' t := by
  simp [grossAt, h]

/-- Joint effect of the `liquidity_change` branch on its two boundary
ticks, when they are distinct, occupy distinct bitmap positions, both
words are known, and the tick map is a well-formed dict. -/
theorem applyLCField_two_ticks (q : PoolModel) (prov : ChainProvider)
    (D L U : Int) (blk : Nat)
    (hD : D ≠ 0) (hLU : L ≠ U)
    (hpos : tickWordAndBit q.tick_spacing L ≠ tickWordAndBit q.tick_spacing U)
    (hwL : (kvLookup q.tick_bitmap (tickWordAndBit q.tick_spacing L).1).isSome = true)
    (hwU : (kvLookup q.tick_bitmap (tickWordAndBit q.tick_spacing U).1).isSome = true)
    (hnd : kvNodup q.tick_data) :
    (applyLiquidityChangeField q prov (some (D, L, U)) blk).1 = true
  ∧ (grossAt q.tick_data L + D = 0 →
      kvLookup (applyLiquidityChangeField q prov (some (D, L, U)) blk).2.tick_data L = none
    ∧ bitAtTick (applyLiquidityChangeField q prov (some (D, L, U)) blk).2.tick_bitmap
        q.tick_spacing L = !(bitAtTick q.tick_bitmap q.tick_spacing L))
  ∧ (grossAt q.tick_data L + D ≠ 0 →
      kvLookup (applyLiquidityChangeField q prov (some (D, L, U)) blk).2.tick_data L
        = some ⟨netAt q.tick_data L + D, grossAt q.tick_data L + D, blk⟩)
  ∧ (grossAt q.tick_data U + D = 0 →
      kvLookup (applyLiquidityChangeField q prov (some (D, L, U)) blk).2.tick_data U = none
    ∧ bitAtTick (applyLiquidityChangeField q prov (some (D, L, U)) blk).2.tick_bitmap
        q.tick_spacing U = !(bitAtTick q.tick_bitmap q.tick_spacing U))
  ∧ (grossAt q.tick_data U + D ≠ 0 →
      kvLookup (applyLiquidityChangeField q prov (some (D, L, U)) blk).2.tick_data U
        = some ⟨netAt q.tick_data U - D, grossAt q.tick_data U + D, blk⟩) := by
  have hUL : U ≠ L := Ne.symm hLU
  simp only [applyLiquidityChangeField]
  rw [if_pos (show ((D, L, U) : Int × Int × Int).1 ≠ 0 from hD)]
  dsimp only
  set p4 := (if L ≤ q.tick ∧ q.tick < U then { q with liquidity := q.liquidity + D } else q)
    with hp4
  have h4td : p4.tick_data = q.tick_data := by rw [hp4]; split <;> rfl
  have h4tb : p4.tick_bitmap = q.tick_bitmap := by rw [hp4]; split <;> rfl
  have h4sp : p4.tick_spacing = q.tick_spacing := by rw [hp4]; split <;> rfl
  set p5 := applyLiquidityChangeAtTick p4 prov D L L blk with hp5
  obtain ⟨h5td, h5tb, h5sp, _⟩ :=
    applyLCAtTick_closed p4 prov D L L blk hD (by rw [h4tb, h4sp]; exact hwL)
  rw [h4td] at h5td
  rw [h4td, h4tb, h4sp] at h5tb
  rw [h4sp] at h5sp
  rw [if_pos rfl] at h5td
  have hword5 : (kvLookup p5.tick_bitmap (tickWordAndBit p5.tick_spacing U).1).isSome
      = true := by
    rw [h5tb, h5sp]
    split
    · exact hwU
    · exact flipTick_preserves_word _ _ _ _ hwU
  obtain ⟨h6td, h6tb, h6sp, _⟩ := applyLCAtTick_closed p5 prov D L U blk hD hword5
  rw [if_neg hUL] at h6td
  simp only [netAt_def, grossAt_def] at h5td h5tb h6td h6tb
  -- lookups at U pass through the L operation
  have hlu5 : kvLookup p5.tick_data U = kvLookup q.tick_data U := by
    rw [h5td]
    split
    · exact kvLookup_kvErase_ne _ _ _ hLU
    · exact kvLookup_kvInsert_ne _ _ _ _ hLU
  have hnet5U : netAt p5.tick_data U = netAt q.tick_data U := netAt_congr _ _ _ hlu5
  have hgross5U : grossAt p5.tick_data U = grossAt q.tick_data U := grossAt_congr _ _ _ hlu5
  -- lookups at L pass through the U operation
  have hlu6L : kvLookup (applyLiquidityChangeAtTick p5 prov D L U blk).tick_data L
      = kvLookup p5.tick_data L := by
    rw [h6td]
    split
    · exact kvLookup_kvErase_ne _ _ _ hUL
    · exact kvLookup_kvInsert_ne _ _ _ _ hUL
  -- bits at L pass through the U operation
  have hbit6L : bitAtTick (applyLiquidityChangeAtTick p5 prov D L U blk).tick_bitmap
      q.tick_spacing L = bitAtTick p5.tick_bitmap q.tick_spacing L := by
    rw [h6tb, h5sp]
    split
    · rfl
    · rw [bitAtTick_flipTick, if_neg (Ne.symm hpos)]
  -- bits at U pass through the L operation
  have hbit5U : bitAtTick p5.tick_bitmap q.tick_spacing U
      = bitAtTick q.tick_bitmap q.tick_spacing U := by
    rw [h5tb]
    split
    · rfl
    · rw [bitAtTick_flipTick, if_neg (by exact fun hc => hpos hc)]
  have hnd5 : kvNodup p5.tick_data := by
    rw [h5td]
    split
    · exact kvNodup_kvErase _ _ hnd
    · exact kvNodup_kvInsert _ _ _ hnd
  refine ⟨rfl, ?_, ?_, ?_, ?_⟩
  · intro hzL
    constructor
    · rw [hlu6L, h5td, if_pos hzL]
      exact kvLookup_kvErase_self _ _ hnd
    · rw [hbit6L, h5tb]
      rw [if_neg (by
        intro hc
        exact hc.2 hzL)]
      rw [bitAtTick_flipTick, if_pos rfl]
  · intro hnzL
    rw [hlu6L, h5td, if_neg hnzL]
    exact kvLookup_kvInsert_self _ _ _
  · intro hzU
    constructor
    · rw [h6td, hgross5U, if_pos hzU]
      exact kvLookup_kvErase_self _ _ hnd5
    · rw [h6tb]
      rw [if_neg (by
        intro hc
        rw [hgross5U] at hc
        exact hc.2 hzU)]
      rw [h5sp, bitAtTick_flipTick, if_pos rfl, hbit5U]
  · intro hnzU
    rw [h6td, hgross5U, hnet5U, if_neg hnzU]
    exact kvLookup_kvInsert_self _ _ _

/-- C1, amended: for every external update carrying
`liquidity_change = (D, lower, upper)` with nonzero `D`, distinct
boundary ticks occupying distinct bitmap positions, an update block at or
after the recorded one, both boundary words known, and a well-formed tick
map, `external_update` reports a change and, for each boundary tick, sets
the new net liquidity to `old_net + D` at the lower tick and
`old_net - D` at the upper tick and the new gross liquidity to
`old_gross + D` (net and gross defaulting to zero for a missing entry);
when the new gross is zero it deletes the tick's entry and flips the
tick's bitmap bit, else it writes the updated entry. -/
theorem external_update_liquidity_change_amended
    (p : PoolModel) (prov : ChainProvider) (u : UniswapV3PoolExternalUpdate)
    (D L U : Int)
    (hc : u.liquidity_change = some (D, L, U))
    (hD : D ≠ 0) (hLU : L ≠ U)
    (hpos : tickWordAndBit p.tick_spacing L ≠ tickWordAndBit p.tick_spacing U)
    (hb : p.update_block ≤ u.block_number)
    (hwL : (kvLookup p.tick_bitmap (tickWordAndBit p.tick_spacing L).1).isSome = true)
    (hwU : (kvLookup p.tick_bitmap (tickWordAndBit p.tick_spacing U).1).isSome = true)
    (hnd : kvNodup p.tick_data)
    (ch : Bool) (p' : PoolModel) (ns : List PoolSnapshot)
    (hres : external_update p u prov = .ok (ch, p', ns)) :
    ch = true
  ∧ (grossAt p.tick_data L + D = 0 →
      kvLookup p'.tick_data L = none
    ∧ bitAtTick p'.tick_bitmap p.tick_spacing L
        = !(bitAtTick p.tick_bitmap p.tick_spacing L))
  ∧ (grossAt p.tick_data L + D ≠ 0 →
      kvLookup p'.tick_data L
        = some ⟨netAt p.tick_data L + D, grossAt p.tick_data L + D, u.block_number⟩)
  ∧ (grossAt p.tick_data U + D = 0 →
      kvLookup p'.tick_data U = none
    ∧ bitAtTick p'.tick_bitmap p.tick_spacing U
        = !(bitAtTick p.tick_bitmap p.tick_spacing U))
  ∧ (grossAt p.tick_data U + D ≠ 0 →
      kvLookup p'.tick_data U
        = some ⟨netAt p.tick_data U - D, grossAt p.tick_data U + D, u.block_number⟩) := by
  simp only [external_update] at hres
  rw [if_neg (by omega : ¬ u.block_number < p.update_block), hc] at hres
  obtain ⟨hqtd1, hqtb1, hqsp1, _, _⟩ := applyTickField_maps p u.tick
  obtain ⟨hqtd2, hqtb2, hqsp2, _, _⟩ :=
    applyLiquidityField_maps (applyTickField p u.tick).2 u.liquidity
  obtain ⟨hqtd3, hqtb3, hqsp3, _, _⟩ :=
    applySqrtPriceField_maps (applyLiquidityField (applyTickField p u.tick).2 u.liquidity).2
      u.sqrt_price_x96
  set q3 := (applySqrtPriceField
    (applyLiquidityField (applyTickField p u.tick).2 u.liquidity).2 u.sqrt_price_x96).2
    with hq3
  have htd : q3.tick_data = p.tick_data := by rw [hq3, hqtd3, hqtd2, hqtd1]
  have htb : q3.tick_bitmap = p.tick_bitmap := by rw [hq3, hqtb3, hqtb2, hqtb1]
  have hsp : q3.tick_spacing = p.tick_spacing := by rw [hq3, hqsp3, hqsp2, hqsp1]
  have h2t := applyLCField_two_ticks q3 prov D L U u.block_number hD hLU
    (by rw [hsp]; exact hpos) (by rw [htb, hsp]; exact hwL)
    (by rw [htb, hsp]; exact hwU) (by rw [htd]; exact hnd)
  rw [htd, htb, hsp] at h2t
  obtain ⟨hflag, hL0, hL1, hU0, hU1⟩ := h2t
  rw [hflag] at hres
  simp only [Bool.or_true, eq_self_iff_true, if_true] at hres
  injection hres with hres
  have hch : true = ch := congrArg Prod.fst hres
  have hp' : ({ (applyLiquidityChangeField q3 prov (some (D, L, U)) u.block_number).2 with
      archive := ((applyLiquidityChangeField q3 prov (some (D, L, U)) u.block_number).2).archive.map
        (fun a => archInsert a u.block_number
          ((applyLiquidityChangeField q3 prov (some (D, L, U)) u.block_number).2).toSnapshot),
      update_block := u.block_number } : PoolModel) = p' :=
    congrArg Prod.fst (congrArg Prod.snd hres)
  have hptd : p'.tick_data
      = (applyLiquidityChangeField q3 prov (some (D, L, U)) u.block_number).2.tick_data := by
    rw [← hp']
  have hptb : p'.tick_bitmap
      = (applyLiquidityChangeField q3 prov (some (D, L, U)) u.block_number).2.tick_bitmap := by
    rw [← hp']
  refine ⟨hch.symm, ?_, ?_, ?_, ?_⟩
  · intro hz
    rw [hptd, hptb]
    exact hL0 hz
  · intro hnz
    rw [hptd]
    exact hL1 hnz
  · intro hz
    rw [hptd, hptb]
    exact hU0 hz
  · intro hnz
    rw [hptd]
    exact hU1 hnz

/-- Pool used by the liquidity-change witness: tick spacing 60, entries
at the boundary ticks -60 (net 7, gross 3) and 60 (net 0, gross 5), both
words known. -/
def c1Pool : PoolModel :=
  { liquidity := 1000, sqrt_price_x96 := 123, tick := 0,
    tick_bitmap := [(-1, ⟨2 ^ 255, 90⟩), (0, ⟨2, 90⟩)],
    tick_data := [(-60, ⟨7, 3, 90⟩), (60, ⟨0, 5, 90⟩)],
    tick_spacing := 60, fee := 3000, sparse_liquidity_map := false,
    update_block := 100, archive := some [] }

/-- Update used by the liquidity-change witness: burn of 3 over
`[-60, 60)` at block 101, zeroing the gross liquidity at tick -60. -/
def c1Upd : UniswapV3PoolExternalUpdate :=
  ⟨101, none, none, none, some (-3, -60, 60)⟩

/-- The computed result of the witness update (the update succeeds, so
the fallback arm is never taken). -/
def c1Res : Bool × PoolModel × List PoolSnapshot :=
  match external_update c1Pool c1Upd trivialProvider with
  | .ok v => v
  | .error _ => (false, c1Pool, [])

/-- C1, witness: applying the witness update reports a change, deletes
the entry at tick -60 (gross reached zero) and flips its bit, and writes
net 3 = 0 - (-3), gross 2 = 5 + (-3) at tick 60. -/
theorem external_update_liquidity_change_witness :
    c1Res.1 = true
  ∧ kvLookup c1Res.2.1.tick_data (-60) = none
  ∧ bitAtTick c1Res.2.1.tick_bitmap 60 (-60)
      = !(bitAtTick c1Pool.tick_bitmap 60 (-60))
  ∧ kvLookup c1Res.2.1.tick_data 60 = some ⟨3, 2, 101⟩ := by
  have h := external_update_liquidity_change_amended c1Pool trivialProvider c1Upd
    (-3) (-60) 60 rfl (by decide) (by decide) (by decide) (by decide)
    (by decide) (by decide) (by decide)
    c1Res.1 c1Res.2.1 c1Res.2.2 rfl
  refine ⟨h.1, (h.2.1 (by decide)).1, ?_, ?_⟩
  · exact (h.2.1 (by decide)).2
  · have := h.2.2.2.2 (by decide)
    simpa using this

/-- Pool used by the degenerate-range counterexample: empty tick data,
word 0 known, tick spacing 1. -/
def c1CexPool : PoolModel :=
  { liquidity := 999, sqrt_price_x96 := 123, tick := 10,
    tick_bitmap := [(0, ⟨0, 90⟩)], tick_data := [],
    tick_spacing := 1, fee := 3000, sparse_liquidity_map := false,
    update_block := 100, archive := some [] }

/-- The net liquidity the code leaves at tick 0 after a liquidity change
with `lower_tick = upper_tick = 0` and delta 5. -/
def c1CexNet : Option Int :=
  match external_update c1CexPool ⟨100, none, none, none, some (5, 0, 0)⟩
      trivialProvider with
  | .ok r => (kvLookup r.2.1.tick_data 0).map (·.liquidityNet)
  | .error _ => none

/-- C1, counterexample to the claim as stated: with
`lower_tick = upper_tick = 0` and delta 5 on a tick with no entry, the
loop processes the same tick twice and adds the delta both times, ending
at net 10, while the claim prescribes `old_net - delta = -5` for the
upper tick. -/
theorem external_update_liquidity_change_claim_counterexample :
    c1CexNet = some 10 ∧ some (10 : Int) ≠ some ((0 : Int) - 5) := by
  refine ⟨by decide, by decide⟩

/-- Companion to `applyLCField_two_ticks`: the branch preserves the tick
spacing, word presence and dict well-formedness, and the bit of each
boundary tick is untouched exactly when that tick's entry exists and
survives, and toggled otherwise. -/
theorem applyLCField_two_ticks_aux (q : PoolModel) (prov : ChainProvider)
    (D L U : Int) (blk : Nat)
    (hD : D ≠ 0) (hLU : L ≠ U)
    (hpos : tickWordAndBit q.tick_spacing L ≠ tickWordAndBit q.tick_spacing U)
    (hwL : (kvLookup q.tick_bitmap (tickWordAndBit q.tick_spacing L).1).isSome = true)
    (hwU : (kvLookup q.tick_bitmap (tickWordAndBit q.tick_spacing U).1).isSome = true)
    (hnd : kvNodup q.tick_data) :
    (applyLiquidityChangeField q prov (some (D, L, U)) blk).2.tick_spacing = q.tick_spacing
  ∧ (∀ w, (kvLookup q.tick_bitmap w).isSome = true →
      (kvLookup (applyLiquidityChangeField q prov (some (D, L, U)) blk).2.tick_bitmap w).isSome
        = true)
  ∧ kvNodup (applyLiquidityChangeField q prov (some (D, L, U)) blk).2.tick_data
  ∧ ((kvLookup q.tick_data L).isSome = true ∧ grossAt q.tick_data L + D ≠ 0 →
      bitAtTick (applyLiquidityChangeField q prov (some (D, L, U)) blk).2.tick_bitmap
        q.tick_spacing L = bitAtTick q.tick_bitmap q.tick_spacing L)
  ∧ (¬ ((kvLookup q.tick_data L).isSome = true ∧ grossAt q.tick_data L + D ≠ 0) →
      bitAtTick (applyLiquidityChangeField q prov (some (D, L, U)) blk).2.tick_bitmap
        q.tick_spacing L = !(bitAtTick q.tick_bitmap q.tick_spacing L))
  ∧ ((kvLookup q.tick_data U).isSome = true ∧ grossAt q.tick_data U + D ≠ 0 →
      bitAtTick (applyLiquidityChangeField q prov (some (D, L, U)) blk).2.tick_bitmap
        q.tick_spacing U = bitAtTick q.tick_bitmap q.tick_spacing U)
  ∧ (¬ ((kvLookup q.tick_data U).isSome = true ∧ grossAt q.tick_data U + D ≠ 0) →
      bitAtTick (applyLiquidityChangeField q prov (some (D, L, U)) blk).2.tick_bitmap
        q.tick_spacing U = !(bitAtTick q.tick_bitmap q.tick_spacing U)) := by
  have hUL : U ≠ L := Ne.symm hLU
  simp only [applyLiquidityChangeField]
  rw [if_pos (show ((D, L, U) : Int × Int × Int).1 ≠ 0 from hD)]
  dsimp only
  set p4 := (if L ≤ q.tick ∧ q.tick < U then { q with liquidity := q.liquidity + D } else q)
    with hp4
  have h4td : p4.tick_data = q.tick_data := by rw [hp4]; split <;> rfl
  have h4tb : p4.tick_bitmap = q.tick_bitmap := by rw [hp4]; split <;> rfl
  have h4sp : p4.tick_spacing = q.tick_spacing := by rw [hp4]; split <;> rfl
  set p5 := applyLiquidityChangeAtTick p4 prov D L L blk with hp5
  obtain ⟨h5td, h5tb, h5sp, _⟩ :=
    applyLCAtTick_closed p4 prov D L L blk hD (by rw [h4tb, h4sp]; exact hwL)
  rw [h4td] at h5td
  rw [h4td, h4tb, h4sp] at h5tb
  rw [h4sp] at h5sp
  rw [if_pos rfl] at h5td
  have hword5 : (kvLookup p5.tick_bitmap (tickWordAndBit p5.tick_spacing U).1).isSome
      = true := by
    rw [h5tb, h5sp]
    split
    · exact hwU
    · exact flipTick_preserves_word _ _ _ _ hwU
  obtain ⟨h6td, h6tb, h6sp, _⟩ := applyLCAtTick_closed p5 prov D L U blk hD hword5
  rw [if_neg hUL] at h6td
  simp only [netAt_def, grossAt_def] at h5td h5tb h6td h6tb
  have hlu5 : kvLookup p5.tick_data U = kvLookup q.tick_data U := by
    rw [h5td]
    split
    · exact kvLookup_kvErase_ne _ _ _ hLU
    · exact kvLookup_kvInsert_ne _ _ _ _ hLU
  have hgross5U : grossAt p5.tick_data U = grossAt q.tick_data U := grossAt_congr _ _ _ hlu5
  have hnet5U : netAt p5.tick_data U = netAt q.tick_data U := netAt_congr _ _ _ hlu5
  simp only [hnet5U, hgross5U] at h6td
  simp only [hlu5, hgross5U] at h6tb
  have hnd5 : kvNodup p5.tick_data := by
    rw [h5td]
    split
    · exact kvNodup_kvErase _ _ hnd
    · exact kvNodup_kvInsert _ _ _ hnd
  have hbit5U : bitAtTick p5.tick_bitmap q.tick_spacing U
      = bitAtTick q.tick_bitmap q.tick_spacing U := by
    rw [h5tb]
    split
    · rfl
    · rw [bitAtTick_flipTick, if_neg (by exact fun hc => hpos hc)]
  refine ⟨?_, ?_, ?_, ?_, ?_, ?_, ?_⟩
  · rw [h6sp, h5sp]
  · intro w hw
    have h5w : (kvLookup p5.tick_bitmap w).isSome = true := by
      rw [h5tb]
      split
      · exact hw
      · exact flipTick_preserves_word _ _ _ _ hw
    rw [h6tb]
    split
    · exact h5w
    · exact flipTick_preserves_word _ _ _ _ h5w
  · rw [h6td]
    split
    · exact kvNodup_kvErase _ _ hnd5
    · exact kvNodup_kvInsert _ _ _ hnd5
  · intro hcond
    have hL6 : bitAtTick (applyLiquidityChangeAtTick p5 prov D L U blk).tick_bitmap
        q.tick_spacing L = bitAtTick p5.tick_bitmap q.tick_spacing L := by
      rw [h6tb]
      split
      · rfl
      · rw [h5sp, bitAtTick_flipTick, if_neg (Ne.symm hpos)]
    rw [hL6, h5tb, if_pos hcond]
  · intro hcond
    have hL6 : bitAtTick (applyLiquidityChangeAtTick p5 prov D L U blk).tick_bitmap
        q.tick_spacing L = bitAtTick p5.tick_bitmap q.tick_spacing L := by
      rw [h6tb]
      split
      · rfl
      · rw [h5sp, bitAtTick_flipTick, if_neg (Ne.symm hpos)]
    rw [hL6, h5tb, if_neg hcond, bitAtTick_flipTick, if_pos rfl]
  · intro hcond
    rw [h6tb, if_pos hcond]
    exact hbit5U
  · intro hcond
    rw [h6tb, if_neg hcond, h5sp, bitAtTick_flipTick, if_pos rfl, hbit5U]

/-- Reduction of `external_update` for an update that carries only a
`liquidity_change` (every other optional field absent). -/
theorem external_update_lc_only (p : PoolModel) (prov : ChainProvider) (b : Nat)
    (lc : Option (Int × Int × Int)) (hb : p.update_block ≤ b) :
    external_update p ⟨b, none, none, none, lc⟩ prov
      = if (applyLiquidityChangeField p prov lc b).1 = true
        then .ok (true,
          { (applyLiquidityChangeField p prov lc b).2 with
            archive := (applyLiquidityChangeField p prov lc b).2.archive.map
              (fun a => archInsert a b (applyLiquidityChangeField p prov lc b).2.toSnapshot),
            update_block := b },
          [(applyLiquidityChangeField p prov lc b).2.toSnapshot])
        else .ok (false, (applyLiquidityChangeField p prov lc b).2, []) := by
  simp only [external_update, applyTickField, applyLiquidityField, applySqrtPriceField]
  rw [if_neg (by omega : ¬ b < p.update_block)]
  simp only [Bool.false_or]

/-- C6, amended: a `liquidity_change` of `D` over `[L, U)` at block `b1`
followed by one of `-D` over the same range at a later block `b2`
restores the net and gross liquidity at ticks `L` and `U` and each
tick's initialized bit, provided the two boundary ticks are distinct
with distinct bitmap positions, their words are known, the tick map is a
well-formed dict, and each boundary tick either has no entry or has an
entry whose gross liquidity is neither `0` nor `-D` (otherwise the first
update deletes the entry and the recorded net value is lost). -/
theorem external_update_mint_burn_roundtrip
    (p : PoolModel) (prov : ChainProvider) (D L U : Int) (b1 b2 : Nat)
    (hb1 : p.update_block ≤ b1) (hb12 : b1 < b2)
    (hLU : L ≠ U)
    (hpos : tickWordAndBit p.tick_spacing L ≠ tickWordAndBit p.tick_spacing U)
    (hwL : (kvLookup p.tick_bitmap (tickWordAndBit p.tick_spacing L).1).isSome = true)
    (hwU : (kvLookup p.tick_bitmap (tickWordAndBit p.tick_spacing U).1).isSome = true)
    (hnd : kvNodup p.tick_data)
    (hgoodL : kvLookup p.tick_data L = none
        ∨ (grossAt p.tick_data L ≠ 0 ∧ grossAt p.tick_data L ≠ -D))
    (hgoodU : kvLookup p.tick_data U = none
        ∨ (grossAt p.tick_data U ≠ 0 ∧ grossAt p.tick_data U ≠ -D))
    (r1 r2 : Bool × PoolModel × List PoolSnapshot)
    (hr1 : external_update p ⟨b1, none, none, none, some (D, L, U)⟩ prov = .ok r1)
    (hr2 : external_update r1.2.1 ⟨b2, none, none, none, some (-D, L, U)⟩ prov = .ok r2) :
    (kvLookup r2.2.1.tick_data L).map (·.liquidityNet)
      = (kvLookup p.tick_data L).map (·.liquidityNet)
  ∧ (kvLookup r2.2.1.tick_data L).map (·.liquidityGross)
      = (kvLookup p.tick_data L).map (·.liquidityGross)
  ∧ (kvLookup r2.2.1.tick_data U).map (·.liquidityNet)
      = (kvLookup p.tick_data U).map (·.liquidityNet)
  ∧ (kvLookup r2.2.1.tick_data U).map (·.liquidityGross)
      = (kvLookup p.tick_data U).map (·.liquidityGross)
  ∧ bitAtTick r2.2.1.tick_bitmap p.tick_spacing L
      = bitAtTick p.tick_bitmap p.tick_spacing L
  ∧ bitAtTick r2.2.1.tick_bitmap p.tick_spacing U
      = bitAtTick p.tick_bitmap p.tick_spacing U := by
  by_cases hD : D = 0
  · subst hD
    rw [external_update_lc_only p prov b1 _ hb1,
      applyLiquidityChangeField_noop p prov _ b1 (Or.inr ⟨(L, U), rfl⟩)] at hr1
    simp only [Bool.false_eq_true, if_false, Except.ok.injEq] at hr1
    rw [external_update_lc_only r1.2.1 prov b2 _
      (by rw [← hr1]; show p.update_block ≤ b2; omega),
      applyLiquidityChangeField_noop r1.2.1 prov _ b2 (Or.inr ⟨(L, U), by simp⟩)] at hr2
    simp only [Bool.false_eq_true, if_false, Except.ok.injEq] at hr2
    rw [← hr2, ← hr1]
    exact ⟨rfl, rfl, rfl, rfl, rfl, rfl⟩
  · rw [external_update_lc_only p prov b1 _ hb1] at hr1
    obtain ⟨hflag1, hL01, hL11, hU01, hU11⟩ :=
      applyLCField_two_ticks p prov D L U b1 hD hLU hpos hwL hwU hnd
    obtain ⟨hsp1, hword1, hnd1, hbs1L, hbf1L, hbs1U, hbf1U⟩ :=
      applyLCField_two_ticks_aux p prov D L U b1 hD hLU hpos hwL hwU hnd
    rw [if_pos hflag1] at hr1
    injection hr1 with hr1
    have hP1 : ({ (applyLiquidityChangeField p prov (some (D, L, U)) b1).2 with
        archive := (applyLiquidityChangeField p prov (some (D, L, U)) b1).2.archive.map
          (fun a => archInsert a b1
            (applyLiquidityChangeField p prov (some (D, L, U)) b1).2.toSnapshot),
        update_block := b1 } : PoolModel) = r1.2.1 :=
      congrArg Prod.fst (congrArg Prod.snd hr1)
    have hQtd : r1.2.1.tick_data
        = (applyLiquidityChangeField p prov (some (D, L, U)) b1).2.tick_data := by
      rw [← hP1]
    have hQtb : r1.2.1.tick_bitmap
        = (applyLiquidityChangeField p prov (some (D, L, U)) b1).2.tick_bitmap := by
      rw [← hP1]
    have hQsp : r1.2.1.tick_spacing = p.tick_spacing := by
      rw [← hP1]
      exact hsp1
    have hQub : r1.2.1.update_block = b1 := by
      rw [← hP1]
    have hD2 : -D ≠ 0 := by
      intro hc
      exact hD (by omega)
    rw [external_update_lc_only r1.2.1 prov b2 _ (by omega)] at hr2
    obtain ⟨hflag2, hL02, hL12, hU02, hU12⟩ :=
      applyLCField_two_ticks r1.2.1 prov (-D) L U b2 hD2 hLU
        (by rw [hQsp]; exact hpos)
        (by rw [hQtb, hQsp]; exact hword1 _ hwL)
        (by rw [hQtb, hQsp]; exact hword1 _ hwU)
        (by rw [hQtd]; exact hnd1)
    obtain ⟨hsp2, hword2, hnd2, hbs2L, hbf2L, hbs2U, hbf2U⟩ :=
      applyLCField_two_ticks_aux r1.2.1 prov (-D) L U b2 hD2 hLU
        (by rw [hQsp]; exact hpos)
        (by rw [hQtb, hQsp]; exact hword1 _ hwL)
        (by rw [hQtb, hQsp]; exact hword1 _ hwU)
        (by rw [hQtd]; exact hnd1)
    rw [if_pos hflag2] at hr2
    injection hr2 with hr2
    have hP2 : ({ (applyLiquidityChangeField r1.2.1 prov (some (-D, L, U)) b2).2 with
        archive := (applyLiquidityChangeField r1.2.1 prov (some (-D, L, U)) b2).2.archive.map
          (fun a => archInsert a b2
            (applyLiquidityChangeField r1.2.1 prov (some (-D, L, U)) b2).2.toSnapshot),
        update_block := b2 } : PoolModel) = r2.2.1 :=
      congrArg Prod.fst (congrArg Prod.snd hr2)
    have hRtd : r2.2.1.tick_data
        = (applyLiquidityChangeField r1.2.1 prov (some (-D, L, U)) b2).2.tick_data := by
      rw [← hP2]
    have hRtb : r2.2.1.tick_bitmap
        = (applyLiquidityChangeField r1.2.1 prov (some (-D, L, U)) b2).2.tick_bitmap := by
      rw [← hP2]
    have hmainL : (kvLookup r2.2.1.tick_data L).map (·.liquidityNet)
          = (kvLookup p.tick_data L).map (·.liquidityNet)
        ∧ (kvLookup r2.2.1.tick_data L).map (·.liquidityGross)
          = (kvLookup p.tick_data L).map (·.liquidityGross)
        ∧ bitAtTick r2.2.1.tick_bitmap p.tick_spacing L
          = bitAtTick p.tick_bitmap p.tick_spacing L := by
      rcases hgoodL with hA | ⟨hgn0, hgnD⟩
      · have hg0 : grossAt p.tick_data L = 0 := by simp [grossAt, hA]
        have hn0 : netAt p.tick_data L = 0 := by simp [netAt, hA]
        have hnz1 : grossAt p.tick_data L + D ≠ 0 := by rw [hg0]; simpa using hD
        have hlook1 := hL11 hnz1
        have hg1 : grossAt r1.2.1.tick_data L = grossAt p.tick_data L + D := by
          rw [hQtd]
          simp [grossAt, hlook1]
        have hz2 : grossAt r1.2.1.tick_data L + -D = 0 := by rw [hg1, hg0]; ring
        obtain ⟨hlk2, hbit2⟩ := hL02 hz2
        refine ⟨?_, ?_, ?_⟩
        · rw [hRtd, hlk2, hA]
        · rw [hRtd, hlk2, hA]
        · have hbitflip1 : bitAtTick r1.2.1.tick_bitmap p.tick_spacing L
              = !(bitAtTick p.tick_bitmap p.tick_spacing L) := by
            rw [hQtb]
            exact hbf1L (by rw [hA]; simp)
          rw [hRtb]
          rw [hQsp] at hbit2
          rw [hbit2, hbitflip1, Bool.not_not]
      · have hsome : (kvLookup p.tick_data L).isSome = true := by
          rcases hh : kvLookup p.tick_data L with _ | e
          · exact absurd (by simp [grossAt, hh] : grossAt p.tick_data L = 0) hgn0
          · rfl
        have hnz1 : grossAt p.tick_data L + D ≠ 0 := by
          intro hc
          exact hgnD (by omega)
        have hlook1 := hL11 hnz1
        have hg1 : grossAt r1.2.1.tick_data L = grossAt p.tick_data L + D := by
          rw [hQtd]
          simp [grossAt, hlook1]
        have hn1 : netAt r1.2.1.tick_data L = netAt p.tick_data L + D := by
          rw [hQtd]
          simp [netAt, hlook1]
        have hsome1 : (kvLookup r1.2.1.tick_data L).isSome = true := by
          rw [hQtd, hlook1]
          rfl
        have hnz2 : grossAt r1.2.1.tick_data L + -D ≠ 0 := by
          rw [hg1]
          intro hc
          exact hgn0 (by omega)
        have hlook2 := hL12 hnz2
        obtain ⟨e, he⟩ := Option.isSome_iff_exists.mp hsome
        have hnE : netAt p.tick_data L = e.liquidityNet := by simp [netAt, he]
        have hgE : grossAt p.tick_data L = e.liquidityGross := by simp [grossAt, he]
        refine ⟨?_, ?_, ?_⟩
        · rw [hRtd, hlook2, he, hn1, hnE]
          simp only [Option.map_some']
          congr 1
          ring
        · rw [hRtd, hlook2, he, hg1, hgE]
          simp only [Option.map_some']
          congr 1
          ring
        · rw [hRtb]
          have hb2 := hbs2L ⟨hsome1, hnz2⟩
          rw [hQsp] at hb2
          rw [hb2, hQtb]
          exact hbs1L ⟨hsome, hnz1⟩
    have hmainU : (kvLookup r2.2.1.tick_data U).map (·.liquidityNet)
          = (kvLookup p.tick_data U).map (·.liquidityNet)
        ∧ (kvLookup r2.2.1.tick_data U).map (·.liquidityGross)
          = (kvLookup p.tick_data U).map (·.liquidityGross)
        ∧ bitAtTick r2.2.1.tick_bitmap p.tick_spacing U
          = bitAtTick p.tick_bitmap p.tick_spacing U := by
      rcases hgoodU with hA | ⟨hgn0, hgnD⟩
      · have hg0 : grossAt p.tick_data U = 0 := by simp [grossAt, hA]
        have hnz1 : grossAt p.tick_data U + D ≠ 0 := by rw [hg0]; simpa using hD
        have hlook1 := hU11 hnz1
        have hg1 : grossAt r1.2.1.tick_data U = grossAt p.tick_data U + D := by
          rw [hQtd]
          simp [grossAt, hlook1]
        have hz2 : grossAt r1.2.1.tick_data U + -D = 0 := by rw [hg1, hg0]; ring
        obtain ⟨hlk2, hbit2⟩ := hU02 hz2
        refine ⟨?_, ?_, ?_⟩
        · rw [hRtd, hlk2, hA]
        · rw [hRtd, hlk2, hA]
        · have hbitflip1 : bitAtTick r1.2.1.tick_bitmap p.tick_spacing U
              = !(bitAtTick p.tick_bitmap p.tick_spacing U) := by
            rw [hQtb]
            exact hbf1U (by rw [hA]; simp)
          rw [hRtb]
          rw [hQsp] at hbit2
          rw [hbit2, hbitflip1, Bool.not_not]
      · have hsome : (kvLookup p.tick_data U).isSome = true := by
          rcases hh : kvLookup p.tick_data U with _ | e
          · exact absurd (by simp [grossAt, hh] : grossAt p.tick_data U = 0) hgn0
          · rfl
        have hnz1 : grossAt p.tick_data U + D ≠ 0 := by
          intro hc
          exact hgnD (by omega)
        have hlook1 := hU11 hnz1
        have hg1 : grossAt r1.2.1.tick_data U = grossAt p.tick_data U + D := by
          rw [hQtd]
          simp [grossAt, hlook1]
        have hn1 : netAt r1.2.1.tick_data U = netAt p.tick_data U - D := by
          rw [hQtd]
          simp [netAt, hlook1]
        have hsome1 : (kvLookup r1.2.1.tick_data U).isSome = true := by
          rw [hQtd, hlook1]
          rfl
        have hnz2 : grossAt r1.2.1.tick_data U + -D ≠ 0 := by
          rw [hg1]
          intro hc
          exact hgn0 (by omega)
        have hlook2 := hU12 hnz2
        obtain ⟨e, he⟩ := Option.isSome_iff_exists.mp hsome
        have hnE : netAt p.tick_data U = e.liquidityNet := by simp [netAt, he]
        have hgE : grossAt p.tick_data U = e.liquidityGross := by simp [grossAt, he]
        refine ⟨?_, ?_, ?_⟩
        · rw [hRtd, hlook2, he, hn1, hnE]
          simp only [Option.map_some']
          congr 1
          ring
        · rw [hRtd, hlook2, he, hg1, hgE]
          simp only [Option.map_some']
          congr 1
          ring
        · rw [hRtb]
          have hb2 := hbs2U ⟨hsome1, hnz2⟩
          rw [hQsp] at hb2
          rw [hb2, hQtb]
          exact hbs1U ⟨hsome, hnz1⟩
    exact ⟨hmainL.1, hmainL.2.1, hmainU.1, hmainU.2.1, hmainL.2.2, hmainU.2.2⟩

/-- Pool used by the mint/burn round-trip witness: an entry at tick -60
(net 7, gross 5), no entry at tick 60, both words known. -/
def c6Pool : PoolModel :=
  { liquidity := 1000, sqrt_price_x96 := 123, tick := 0,
    tick_bitmap := [(-1, ⟨2 ^ 255, 90⟩), (0, ⟨2, 90⟩)],
    tick_data := [(-60, ⟨7, 5, 90⟩)],
    tick_spacing := 60, fee := 3000, sparse_liquidity_map := false,
    update_block := 100, archive := some [] }

/-- Result of the mint (delta 3 over `[-60, 60)` at block 101). -/
def c6Res1 : Bool × PoolModel × List PoolSnapshot :=
  match external_update c6Pool ⟨101, none, none, none, some (3, -60, 60)⟩
      trivialProvider with
  | .ok v => v
  | .error _ => (false, c6Pool, [])

/-- Result of the burn (delta -3 over `[-60, 60)` at block 102). -/
def c6Res2 : Bool × PoolModel × List PoolSnapshot :=
  match external_update c6Res1.2.1 ⟨102, none, none, none, some (-3, -60, 60)⟩
      trivialProvider with
  | .ok v => v
  | .error _ => (false, c6Res1.2.1, [])

/-- C6, witness: the mint-then-burn round trip at the witness pool
restores net, gross and initialized bits at both boundary ticks. -/
theorem external_update_mint_burn_roundtrip_witness :
    (kvLookup c6Res2.2.1.tick_data (-60)).map (·.liquidityNet)
      = (kvLookup c6Pool.tick_data (-60)).map (·.liquidityNet)
  ∧ (kvLookup c6Res2.2.1.tick_data (-60)).map (·.liquidityGross)
      = (kvLookup c6Pool.tick_data (-60)).map (·.liquidityGross)
  ∧ (kvLookup c6Res2.2.1.tick_data 60).map (·.liquidityNet)
      = (kvLookup c6Pool.tick_data 60).map (·.liquidityNet)
  ∧ (kvLookup c6Res2.2.1.tick_data 60).map (·.liquidityGross)
      = (kvLookup c6Pool.tick_data 60).map (·.liquidityGross)
  ∧ bitAtTick c6Res2.2.1.tick_bitmap c6Pool.tick_spacing (-60)
      = bitAtTick c6Pool.tick_bitmap c6Pool.tick_spacing (-60)
  ∧ bitAtTick c6Res2.2.1.tick_bitmap c6Pool.tick_spacing 60
      = bitAtTick c6Pool.tick_bitmap c6Pool.tick_spacing 60 :=
  external_update_mint_burn_roundtrip c6Pool trivialProvider 3 (-60) 60 101 102
    (by decide) (by decide) (by decide) (by decide) (by decide) (by decide)
    (by decide) (Or.inr ⟨by decide, by decide⟩) (Or.inl (by decide))
    c6Res1 c6Res2 rfl rfl

/-- Pool used by the round-trip counterexample: the entry at tick -60
has gross liquidity 3, which the first update (delta -3) zeroes. -/
def c6CexPool : PoolModel :=
  { liquidity := 1000, sqrt_price_x96 := 123, tick := 0,
    tick_bitmap := [(-1, ⟨2 ^ 255, 90⟩), (0, ⟨2, 90⟩)],
    tick_data := [(-60, ⟨7, 3, 90⟩), (60, ⟨0, 5, 90⟩)],
    tick_spacing := 60, fee := 3000, sparse_liquidity_map := false,
    update_block := 100, archive := some [] }

/-- Net liquidity at tick -60 after a burn of 3 over `[-60, 60)` at
block 101 followed by a mint of 3 over the same range at block 102. -/
def c6CexNet : Option Int :=
  match external_update c6CexPool ⟨101, none, none, none, some (-3, -60, 60)⟩
      trivialProvider with
  | .ok r1 =>
    match external_update r1.2.1 ⟨102, none, none, none, some (3, -60, 60)⟩
        trivialProvider with
    | .ok r2 => (kvLookup r2.2.1.tick_data (-60)).map (·.liquidityNet)
    | .error _ => none
  | .error _ => none

/-- C6, counterexample to the claim as stated: the first update zeroes
the gross liquidity at tick -60, deleting the entry and its recorded net
value 7; the opposite update then recreates the entry with net 3, so the
pre-update net liquidity is not restored. -/
theorem external_update_mint_burn_claim_counterexample :
    c6CexNet = some 3
  ∧ (kvLookup c6CexPool.tick_data (-60)).map (·.liquidityNet) = some 7
  ∧ some (3 : Int) ≠ some (7 : Int) := by
  refine ⟨by decide, by decide, by decide⟩

/-! ## Swap simulation engine

Embedding of `V3LiquidityPool._calculate_swap` together with
`SwapMath.computeSwapStep`.  The fixed-point primitives of FullMath and
SqrtPriceMath are not part of this tree, so they are abstracted into a
`SwapPrims` record; every theorem below quantifies over it and therefore
holds for the real implementations. -/

/-- Modelled from the spec: the protocol's global minimum tick
(`TickMath.MIN_TICK`, library not in the tree). -/
def MIN_TICK : Int := -887272

/-- Modelled from the spec: the protocol's global maximum tick
(`TickMath.MAX_TICK`). -/
def MAX_TICK : Int := 887272

/-- Modelled from the spec: the global minimum sqrt price bound
(`TickMath.MIN_SQRT_RATIO`). -/
def MIN_SQRT_RATIO_X96 : Int := 4295128739

/-- Modelled from the spec: the global maximum sqrt price bound
(`TickMath.MAX_SQRT_RATIO`). -/
def MAX_SQRT_RATIO_X96 : Int := 1461446703485210103287273052203988822378723970342

/-- The abstract fixed-point primitives called by the swap code:
`FullMath.muldiv` / `muldiv_rounding_up`, the four SqrtPriceMath
amount/price helpers, and TickMath's `get_sqrt_ratio_at_tick` /
`get_tick_at_sqrt_ratio`. -/
structure SwapPrims where
  muldiv : Int → Int → Int → Int
  muldivRoundingUp : Int → Int → Int → Int
  getAmount0Delta : Int → Int → Int → Bool → Int
  getAmount1Delta : Int → Int → Int → Bool → Int
  getNextSqrtPriceFromInput : Int → Int → Int → Bool → Int
  getNextSqrtPriceFromOutput : Int → Int → Int → Bool → Int
  getSqrtPriceAtTick : Int → Int
  getTickAtSqrtPrice : Int → Int

/-- The output cap of `computeSwapStep` (swap_math.py lines 90-92): on
the exact-output path the output amount never exceeds the remaining
requested output. -/
def capOutput (exact_in : Prop) [Decidable exact_in]
    (amount_out amount_remaining : Int) : Int :=
  if ¬ exact_in ∧ amount_out > -amount_remaining then -amount_remaining else amount_out

theorem capOutput_le (c : Prop) [Decidable c] (out rem : Int) (h : ¬ c) :
    capOutput c out rem ≤ -rem := by
  unfold capOutput
  by_cases ho : out > -rem
  · rw [if_pos ⟨h, ho⟩]
  · rw [if_neg (fun hc => ho hc.2)]
    exact le_of_not_lt ho

/-- The quadruple returned by `computeSwapStep`. -/
structure SwapStepResult where
  sqrtPriceNextX96 : Int
  amountIn : Int
  amountOut : Int
  feeAmount : Int
deriving DecidableEq, Repr

/-- Embedding of `SwapMath.computeSwapStep` (swap_math.py lines 5-105):
size the step on the exact-input or exact-output branch, recompute the
amounts when the target price was not reached, cap the output at the
remaining requested output, and charge the whole remainder as fee when
an exact-input step stops short of the target. -/
def computeSwapStep (pr : SwapPrims)
    (sqrt_ratio_x96_current sqrt_ratio_x96_target liquidity amount_remaining fee_pips : Int) :
    SwapStepResult :=
  let zero_for_one := sqrt_ratio_x96_current ≥ sqrt_ratio_x96_target
  let exact_in := amount_remaining ≥ 0
  let sized : Int × Int × Int :=
    if exact_in then
      let amount_remaining_minus_fee :=
        pr.muldiv amount_remaining (10 ^ 6 - fee_pips) (10 ^ 6)
      let amount_in :=
        if zero_for_one then
          pr.getAmount0Delta sqrt_ratio_x96_target sqrt_ratio_x96_current liquidity true
        else
          pr.getAmount1Delta sqrt_ratio_x96_current sqrt_ratio_x96_target liquidity true
      let next :=
        if amount_remaining_minus_fee ≥ amount_in then sqrt_ratio_x96_target
        else pr.getNextSqrtPriceFromInput sqrt_ratio_x96_current liquidity
          amount_remaining_minus_fee zero_for_one
      (amount_in, 0, next)
    else
      let amount_out :=
        if zero_for_one then
          pr.getAmount1Delta sqrt_ratio_x96_target sqrt_ratio_x96_current liquidity false
        else
          pr.getAmount0Delta sqrt_ratio_x96_current sqrt_ratio_x96_target liquidity false
      let next :=
        if -amount_remaining ≥ amount_out then sqrt_ratio_x96_target
        else pr.getNextSqrtPriceFromOutput sqrt_ratio_x96_current liquidity
          (-amount_remaining) zero_for_one
      (0, amount_out, next)
  let sqrt_ratio_x96_next := sized.2.2
  let reached_target_price := sqrt_ratio_x96_target = sqrt_ratio_x96_next
  let amount_in :=
    if zero_for_one then
      if reached_target_price ∧ exact_in then sized.1
      else pr.getAmount0Delta sqrt_ratio_x96_next sqrt_ratio_x96_current liquidity true
    else
      if reached_target_price ∧ exact_in then sized.1
      else pr.getAmount1Delta sqrt_ratio_x96_current sqrt_ratio_x96_next liquidity true
  let amount_out :=
    if zero_for_one then
      if reached_target_price ∧ ¬ exact_in then sized.2.1
      else pr.getAmount1Delta sqrt_ratio_x96_next sqrt_ratio_x96_current liquidity false
    else
      if reached_target_price ∧ ¬ exact_in then sized.2.1
      else pr.getAmount0Delta sqrt_ratio_x96_current sqrt_ratio_x96_next liquidity false
  let amount_out := capOutput exact_in amount_out amount_remaining
  let fee_amount :=
    if exact_in ∧ sqrt_ratio_x96_next ≠ sqrt_ratio_x96_target then
      amount_remaining - amount_in
    else pr.muldivRoundingUp amount_in fee_pips (10 ^ 6 - fee_pips)
  ⟨sqrt_ratio_x96_next, amount_in, amount_out, fee_amount⟩

deriving instance DecidableEq for Except

inductive SwapErr : Type where
  | revertAS : SwapErr
  | revertSPL : SwapErr
  | revertOverflow : SwapErr
  | liquidityOverflow : SwapErr
  | assertionFailed : SwapErr
  | missingTickData : SwapErr
  | outOfFuel : SwapErr
deriving DecidableEq, Repr

/-- Modelled from the spec: `to_int256` — checked signed 256-bit
arithmetic; a value outside the range is a protocol revert rather than a
silent wrap (spec sections 4.1 step 5 and 7). -/
def to_int256 (x : Int) : Except SwapErr Int :=
  if -(2 ^ 255) ≤ x ∧ x < 2 ^ 255 then .ok x else .error .revertOverflow

/-- Modelled from the spec: `LiquidityMath.addDelta` — overflow-checked
unsigned-128 liquidity plus a signed delta. -/
def addDelta (x y : Int) : Except SwapErr Int :=
  if 0 ≤ x + y ∧ x + y < 2 ^ 128 then .ok (x + y) else .error .liquidityOverflow

theorem addDelta_ok_eq (x y z : Int) (h : addDelta x y = .ok z) : z = x + y := by
  unfold addDelta at h
  split at h
  · injection h with h
    exact h.symm
  · exact absurd h (by simp)

/-- Structural floor base-2 logarithm, fuel-bounded by the word width,
agreeing with `Nat.log2` on words below `2 ^ 256`. -/
def log2w : Nat → Nat → Nat
  | 0, _ => 0
  | fuel + 1, n => if n ≤ 1 then 0 else log2w fuel (n / 2) + 1

/-- Lowest set bit index of a nonzero word. -/
def lsbNat (n : Nat) : Nat :=
  if n = 0 then 0 else log2w 256 (n ^^^ (n &&& (n - 1)))

/-- Modelled from the spec:
`TickBitmap.nextInitializedTickWithinOneWord` — derive word index and
bit position of the spacing-compressed tick by floor division, bit-scan
the masked word toward the trade direction, and signal a missing word as
a distinguishable error so the caller can fetch it (spec section 4.2). -/
def nextInitializedTickWithinOneWord (tb : List (Int × UniswapV3BitmapAtWord))
    (tick spacing : Int) (lte : Bool) : Except Int (Int × Bool) :=
  let compressed := Int.fdiv tick spacing
  if lte then
    let wp := Int.fdiv compressed 256
    let bp := (Int.emod compressed 256).toNat
    match kvLookup tb wp with
    | none => .error wp
    | some w =>
      let mask : Nat := (1 <<< bp) - 1 + (1 <<< bp)
      let masked := w.bitmap &&& mask
      if masked ≠ 0 then
        .ok ((compressed - ((bp : Int) - (log2w 256 masked : Int))) * spacing, true)
      else
        .ok ((compressed - (bp : Int)) * spacing, false)
  else
    let c1 := compressed + 1
    let wp := Int.fdiv c1 256
    let bp := (Int.emod c1 256).toNat
    match kvLookup tb wp with
    | none => .error wp
    | some w =>
      let mask : Nat := (1 <<< 256) - (1 <<< bp)
      let masked := w.bitmap &&& mask
      if masked ≠ 0 then
        .ok ((c1 + ((lsbNat masked : Int) - (bp : Int))) * spacing, true)
      else
        .ok ((c1 + (255 - (bp : Int))) * spacing, false)

/-- Embedding of the `SwapState` dataclass of `_calculate_swap`. -/
structure SwapState where
  amount_specified_remaining : Int
  amount_calculated : Int
  sqrt_price_x96 : Int
  tick : Int
  liquidity : Int
deriving DecidableEq, Repr

/-- The min/max tick clamp of `_calculate_swap` (lines 406-411). -/
def clampTick (t : Int) : Int :=
  if t < MIN_TICK then MIN_TICK else if t > MAX_TICK then MAX_TICK else t

/-- The step's target price (lines 417-432): the limit price when the
next tick's price lies beyond it in the trade direction, else the next
tick's price. -/
def swapTarget (pr : SwapPrims) (zeroForOne : Bool) (tick_next limit : Int) : Int :=
  let nx := pr.getSqrtPriceAtTick tick_next
  if (zeroForOne = true ∧ nx < limit) ∨ (zeroForOne = false ∧ nx > limit) then limit
  else nx

/-- The balance-update statements of the loop body (lines 435-442),
using checked 256-bit arithmetic; returns the new remaining and
calculated amounts. -/
def stepUpdates (exactInput : Bool) (s : SwapState) (r : SwapStepResult) :
    Except SwapErr (Int × Int) :=
  if exactInput then
    match to_int256 (r.amountIn + r.feeAmount) with
    | .error e => .error e
    | .ok v =>
      match to_int256 (s.amount_calculated - r.amountOut) with
      | .error e => .error e
      | .ok c => .ok (s.amount_specified_remaining - v, c)
  else
    match to_int256 r.amountOut with
    | .error e => .error e
    | .ok v =>
      match to_int256 (s.amount_calculated + r.amountIn + r.feeAmount) with
      | .error e => .error e
      | .ok c => .ok (s.amount_specified_remaining + v, c)

inductive IterOut : Type where
  | retry : PoolModel → IterOut
  | step : SwapState → IterOut
deriving DecidableEq, Repr

/-- One iteration of the `_calculate_swap` loop body (lines 385-459):
bit-scan for the next initialized tick (retrying after an on-demand
fetch when the word is missing and the pool is sparse, mirroring the
`BitmapWordUnavailableError` handler and its sparse-mode assertion),
clamp it, run the fee-aware swap step toward the closer of tick price
and limit, update the balances, and do the tick-shift bookkeeping
(crossing when the price lands exactly on the candidate tick's price,
else recomputing the tick from the price when it moved). -/
def swapIteration (pr : SwapPrims) (prov : ChainProvider) (p : PoolModel)
    (ov : Option PoolSnapshot) (zeroForOne exactInput : Bool) (limit : Int)
    (s : SwapState) : Except SwapErr IterOut :=
  let tb := match ov with | some o => o.tick_bitmap | none => p.tick_bitmap
  let td := match ov with | some o => o.tick_data | none => p.tick_data
  match nextInitializedTickWithinOneWord tb s.tick p.tick_spacing zeroForOne with
  | .error w =>
    if p.sparse_liquidity_map then
      .ok (.retry (fetchTickDataAtWord p prov w p.update_block))
    else .error .assertionFailed
  | .ok (tn, initialized) =>
    let tick_next := clampTick tn
    let sqrt_price_next_x96 := pr.getSqrtPriceAtTick tick_next
    let r := computeSwapStep pr s.sqrt_price_x96
      (swapTarget pr zeroForOne tick_next limit) s.liquidity
      s.amount_specified_remaining p.fee
    match stepUpdates exactInput s r with
    | .error e => .error e
    | .ok rc =>
      if r.sqrtPriceNextX96 = sqrt_price_next_x96 then
        if initialized then
          match kvLookup td tick_next with
          | none => .error .missingTickData
          | some info =>
            let net := if zeroForOne then -info.liquidityNet else info.liquidityNet
            match addDelta s.liquidity net with
            | .error e => .error e
            | .ok liq =>
              .ok (.step ⟨rc.1, rc.2, r.sqrtPriceNextX96,
                (if zeroForOne then tick_next - 1 else tick_next), liq⟩)
        else
          .ok (.step ⟨rc.1, rc.2, r.sqrtPriceNextX96,
            (if zeroForOne then tick_next - 1 else tick_next), s.liquidity⟩)
      else if r.sqrtPriceNextX96 ≠ s.sqrt_price_x96 then
        .ok (.step ⟨rc.1, rc.2, r.sqrtPriceNextX96,
          pr.getTickAtSqrtPrice r.sqrtPriceNextX96, s.liquidity⟩)
      else
        .ok (.step ⟨rc.1, rc.2, r.sqrtPriceNextX96, s.tick, s.liquidity⟩)

/-- The `while` loop of `_calculate_swap` (line 382), fuel-bounded.
Returns the final swap state (or the raised error), the pool (whose
mappings a sparse fetch may have grown), and whether any fetch
happened. -/
def swapLoop (pr : SwapPrims) (prov : ChainProvider) (ov : Option PoolSnapshot)
    (zeroForOne exactInput : Bool) (limit : Int) :
    Nat → PoolModel → SwapState → Bool →
      (Except SwapErr SwapState) × PoolModel × Bool
  | 0, p, _, fetched => (.error .outOfFuel, p, fetched)
  | fuel + 1, p, s, fetched =>
    if s.amount_specified_remaining ≠ 0 ∧ s.sqrt_price_x96 ≠ limit then
      match swapIteration pr prov p ov zeroForOne exactInput limit s with
      | .error e => (.error e, p, fetched)
      | .ok (.retry p') =>
        swapLoop pr prov ov zeroForOne exactInput limit fuel p' s true
      | .ok (.step s') =>
        swapLoop pr prov ov zeroForOne exactInput limit fuel p s' fetched
    else (.ok s, p, fetched)

/-- Embedding of `V3LiquidityPool._calculate_swap` (lines 325-473):
reject a zero amount and a mis-ordered price limit, seed the working
state from the override or the live state, run the loop, and assign the
final `(amount0, amount1)` by the trade direction.  An override (when
given) supplies all five state fields, as in the common case of a full
`UniswapV3PoolState` snapshot. -/
def calculateSwap (pr : SwapPrims) (prov : ChainProvider) (fuel : Nat)
    (p : PoolModel) (ov : Option PoolSnapshot) (zeroForOne : Bool)
    (amountSpecified sqrtPriceLimitX96 : Int) :
    (Except SwapErr (Int × Int × Int × Int × Int)) × PoolModel × Bool :=
  if amountSpecified = 0 then (.error .revertAS, p, false)
  else
    let liquidity0 := match ov with | some o => o.liquidity | none => p.liquidity
    let sqrt0 := match ov with | some o => o.sqrt_price_x96 | none => p.sqrt_price_x96
    let tick0 := match ov with | some o => o.tick | none => p.tick
    if zeroForOne = true
        ∧ ¬ (MIN_SQRT_RATIO_X96 < sqrtPriceLimitX96 ∧ sqrtPriceLimitX96 < sqrt0) then
      (.error .revertSPL, p, false)
    else if zeroForOne = false
        ∧ ¬ (sqrt0 < sqrtPriceLimitX96 ∧ sqrtPriceLimitX96 < MAX_SQRT_RATIO_X96) then
      (.error .revertSPL, p, false)
    else
      let exactInput := amountSpecified > 0
      match swapLoop pr prov ov zeroForOne exactInput sqrtPriceLimitX96 fuel p
          ⟨amountSpecified, 0, sqrt0, tick0, liquidity0⟩ false with
      | (.error e, p', fetched) => (.error e, p', fetched)
      | (.ok s, p', fetched) =>
        if zeroForOne = exactInput then
          (.ok (amountSpecified - s.amount_specified_remaining, s.amount_calculated,
            s.sqrt_price_x96, s.liquidity, s.tick), p', fetched)
        else
          (.ok (s.amount_calculated, amountSpecified - s.amount_specified_remaining,
            s.sqrt_price_x96, s.liquidity, s.tick), p', fetched)

inductive CalcErr : Type where
  | liquidityPoolError : CalcErr
  | insufficientAmountOut : CalcErr
deriving DecidableEq, Repr

/-- Embedding of `V3LiquidityPool.calculate_tokens_in_from_tokens_out`
(lines 786-839): run an exact-output swap with the direction-default
price limit, wrap a revert as a `LiquidityPoolError`, and raise
`InsufficientAmountOutError` when the delivered output is smaller than
the requested quantity. -/
def calculate_tokens_in_from_tokens_out (pr : SwapPrims) (prov : ChainProvider)
    (fuel : Nat) (p : PoolModel) (ov : Option PoolSnapshot)
    (tokenOutIsToken1 : Bool) (token_out_quantity : Int) :
    (Except CalcErr Int) × PoolModel × Bool :=
  let zeroForOne := tokenOutIsToken1
  match calculateSwap pr prov fuel p ov zeroForOne (-token_out_quantity)
      (if zeroForOne then MIN_SQRT_RATIO_X96 + 1 else MAX_SQRT_RATIO_X96 - 1) with
  | (.error _, p', fetched) => (.error .liquidityPoolError, p', fetched)
  | (.ok (a0, a1, _, _, _), p', fetched) =>
    if zeroForOne then
      if -a1 < token_out_quantity then (.error .insufficientAmountOut, p', fetched)
      else (.ok a0, p', fetched)
    else
      if -a0 < token_out_quantity then (.error .insufficientAmountOut, p', fetched)
      else (.ok a1, p', fetched)

/-- C9: for every exact-input `computeSwapStep` call (with any
fixed-point primitives), when the returned next sqrt price differs from
the target the step consumes the entire remaining input —
`amount_in + fee_amount = amount_remaining` — so the loop's remaining
amount reaches zero on that iteration, the checked 256-bit conversion
succeeding whenever the remaining amount is in range. -/
theorem computeSwapStep_exact_input_consumes_all (pr : SwapPrims)
    (curr target liquidity rem fee : Int)
    (hrem : 0 ≤ rem)
    (hne : (computeSwapStep pr curr target liquidity rem fee).sqrtPriceNextX96 ≠ target) :
    (computeSwapStep pr curr target liquidity rem fee).amountIn
      + (computeSwapStep pr curr target liquidity rem fee).feeAmount = rem
  ∧ rem - ((computeSwapStep pr curr target liquidity rem fee).amountIn
      + (computeSwapStep pr curr target liquidity rem fee).feeAmount) = 0
  ∧ (rem < 2 ^ 255 →
      to_int256 ((computeSwapStep pr curr target liquidity rem fee).amountIn
        + (computeSwapStep pr curr target liquidity rem fee).feeAmount) = .ok rem) := by
  simp only [computeSwapStep] at hne ⊢
  rw [if_pos (show rem ≥ 0 ∧ _ from ⟨hrem, hne⟩)]
  refine ⟨by ring, by ring, ?_⟩
  intro hlt
  have hsum : ∀ a : Int, a + (rem - a) = rem := fun a => by ring
  rw [hsum]
  unfold to_int256
  rw [if_pos ⟨by omega, hlt⟩]

/-- Primitives used by the exact-input witness: the in-range amount is
larger than the post-fee remainder, so the step stops short of the
target price. -/
def c9Prims : SwapPrims :=
  { muldiv := fun a b c => a * b / c,
    muldivRoundingUp := fun a b c => (a * b + c - 1) / c,
    getAmount0Delta := fun _ _ _ _ => 10,
    getAmount1Delta := fun _ _ _ _ => 10,
    getNextSqrtPriceFromInput := fun p _ _ _ => p - 1,
    getNextSqrtPriceFromOutput := fun p _ _ _ => p - 1,
    getSqrtPriceAtTick := fun _ => 4295128740,
    getTickAtSqrtPrice := fun _ => 0 }

/-- C9, witness: a concrete exact-input step that stops short of the
target (the sized amount 10 exceeds the post-fee remainder 4) and
consumes the whole remaining input of 5. -/
theorem computeSwapStep_exact_input_consumes_all_witness :
    (computeSwapStep c9Prims 100 50 1000 5 3000).amountIn
      + (computeSwapStep c9Prims 100 50 1000 5 3000).feeAmount = 5
  ∧ (5 : Int) - ((computeSwapStep c9Prims 100 50 1000 5 3000).amountIn
      + (computeSwapStep c9Prims 100 50 1000 5 3000).feeAmount) = 0
  ∧ ((5 : Int) < 2 ^ 255 →
      to_int256 ((computeSwapStep c9Prims 100 50 1000 5 3000).amountIn
        + (computeSwapStep c9Prims 100 50 1000 5 3000).feeAmount) = .ok 5) :=
  computeSwapStep_exact_input_consumes_all c9Prims 100 50 1000 5 3000
    (by decide) (by decide)

/-- C7: on the exact-output path the per-step output amount is clamped
to the remaining requested output (for any primitives), and when the
completed simulation delivers less than the requested quantity,
`calculate_tokens_in_from_tokens_out` raises
`InsufficientAmountOutError` instead of returning a truncated result. -/
theorem exact_output_clamped_and_insufficient_raises :
    (∀ (pr : SwapPrims) (curr target liquidity rem fee : Int), rem < 0 →
      (computeSwapStep pr curr target liquidity rem fee).amountOut ≤ -rem)
  ∧ (∀ (pr : SwapPrims) (prov : ChainProvider) (fuel : Nat) (p : PoolModel)
      (ov : Option PoolSnapshot) (zeroForOne : Bool)
      (qty a0 a1 spx lq tk : Int) (p' : PoolModel) (fetched : Bool),
      0 < qty →
      calculateSwap pr prov fuel p ov zeroForOne (-qty)
          (if zeroForOne then MIN_SQRT_RATIO_X96 + 1 else MAX_SQRT_RATIO_X96 - 1)
        = (.ok (a0, a1, spx, lq, tk), p', fetched) →
      (if zeroForOne then -a1 else -a0) < qty →
      calculate_tokens_in_from_tokens_out pr prov fuel p ov zeroForOne qty
        = (.error .insufficientAmountOut, p', fetched)) := by
  constructor
  · intro pr curr target liquidity rem fee hrem
    simp only [computeSwapStep]
    exact capOutput_le _ _ _ (by omega : ¬ rem ≥ 0)
  · intro pr prov fuel p ov zeroForOne qty a0 a1 spx lq tk p' fetched hqty hswap hlt
    simp only [calculate_tokens_in_from_tokens_out]
    rw [hswap]
    cases zeroForOne with
    | true =>
      simp only [eq_self_iff_true, if_true] at hlt ⊢
      rw [if_pos hlt]
    | false =>
      simp only [Bool.false_eq_true, if_false] at hlt ⊢
      rw [if_pos hlt]

/-- Primitives used by the exact-output and purity witnesses: amount
deltas are zero, so steps reach the target at once. -/
def c7Prims : SwapPrims :=
  { muldiv := fun a b c => a * b / c,
    muldivRoundingUp := fun a b c => (a * b + c - 1) / c,
    getAmount0Delta := fun _ _ _ _ => 0,
    getAmount1Delta := fun _ _ _ _ => 0,
    getNextSqrtPriceFromInput := fun p _ _ _ => p - 1,
    getNextSqrtPriceFromOutput := fun p _ _ _ => p - 1,
    getSqrtPriceAtTick := fun _ => 4295128740,
    getTickAtSqrtPrice := fun _ => 0 }

/-- Pool used by the exact-output witness: one known empty word, no tick
entries, non-sparse. -/
def c7Pool : PoolModel :=
  { liquidity := 1000, sqrt_price_x96 := 5000000000, tick := 0,
    tick_bitmap := [(0, ⟨0, 90⟩)], tick_data := [],
    tick_spacing := 1, fee := 3000, sparse_liquidity_map := false,
    update_block := 100, archive := some [] }

set_option maxRecDepth 8000 in
/-- C7, witness: a concrete exact-output step whose output is clamped by
the remaining request, and a concrete exact-output call that delivers 0
of the requested 5 and therefore raises `InsufficientAmountOutError`. -/
theorem exact_output_clamped_and_insufficient_raises_witness :
    (computeSwapStep c7Prims 100 50 1000 (-5) 3000).amountOut ≤ -(-5 : Int)
  ∧ calculate_tokens_in_from_tokens_out c7Prims trivialProvider 5 c7Pool none true 5
      = (.error .insufficientAmountOut, c7Pool, false) :=
  ⟨exact_output_clamped_and_insufficient_raises.1 c7Prims 100 50 1000 (-5) 3000 (by decide),
   exact_output_clamped_and_insufficient_raises.2 c7Prims trivialProvider 5 c7Pool none
     true 5 0 0 4295128740 1000 (-1) c7Pool false (by decide) (by decide) (by decide)⟩

theorem swapLoop_fetched_mono (pr : SwapPrims) (prov : ChainProvider)
    (ov : Option PoolSnapshot) (zeroForOne exactInput : Bool) (limit : Int)
    (fuel : Nat) (p : PoolModel) (s : SwapState) :
    (swapLoop pr prov ov zeroForOne exactInput limit fuel p s true).2.2 = true := by
  induction fuel generalizing p s with
  | zero => rfl
  | succ n ih =>
    rw [swapLoop]
    split
    · rcases hi : swapIteration pr prov p ov zeroForOne exactInput limit s with e | o
      · rfl
      · cases o with
        | retry p' => exact ih p' s
        | step s' => exact ih p s'
    · rfl

theorem swapLoop_pool_eq_of_not_fetched (pr : SwapPrims) (prov : ChainProvider)
    (ov : Option PoolSnapshot) (zeroForOne exactInput : Bool) (limit : Int)
    (fuel : Nat) (p : PoolModel) (s : SwapState)
    (h : (swapLoop pr prov ov zeroForOne exactInput limit fuel p s false).2.2 = false) :
    (swapLoop pr prov ov zeroForOne exactInput limit fuel p s false).2.1 = p := by
  induction fuel generalizing p s with
  | zero => rfl
  | succ n ih =>
    rw [swapLoop] at h ⊢
    by_cases hg : s.amount_specified_remaining ≠ 0 ∧ s.sqrt_price_x96 ≠ limit
    · rw [if_pos hg] at h ⊢
      rcases hi : swapIteration pr prov p ov zeroForOne exactInput limit s with e | o
      · try rw [hi] at h
        try rw [hi]
        try rfl
      · cases o with
        | retry p' =>
          try rw [hi] at h
          try dsimp only at h
          rw [swapLoop_fetched_mono pr prov ov zeroForOne exactInput limit n p' s] at h
          exact Bool.noConfusion h
        | step s' =>
          try rw [hi] at h
          try rw [hi]
          try dsimp only at h
          try dsimp only
          exact ih p s' h
    · rw [if_neg hg] at h ⊢
      try rfl

theorem swapLoop_pool_eq_of_eq (pr : SwapPrims) (prov : ChainProvider)
    (ov : Option PoolSnapshot) (zeroForOne exactInput : Bool) (limit : Int)
    (fuel : Nat) (p : PoolModel) (s : SwapState)
    (r : (Except SwapErr SwapState) × PoolModel × Bool)
    (heq : swapLoop pr prov ov zeroForOne exactInput limit fuel p s false = r)
    (h : r.2.2 = false) : r.2.1 = p := by
  subst heq
  exact swapLoop_pool_eq_of_not_fetched pr prov ov zeroForOne exactInput limit fuel p s h

/-- C3 (amended): a swap simulation that performed no on-demand
bitmap-word fetch leaves the pool untouched — whenever `_calculate_swap`
reports that no `_fetch_tick_data_at_word` call happened, the pool it
hands back is exactly the input pool, for every direction, amount, price
limit, override and fuel.  (The claim as stated, purity for *every*
call, fails: the sparse-mode missing-word handler mutates the pool's
`tick_bitmap` and `tick_data`.) -/
theorem calculate_swap_pure_amended (pr : SwapPrims) (prov : ChainProvider)
    (fuel : Nat) (p : PoolModel) (ov : Option PoolSnapshot) (zeroForOne : Bool)
    (amountSpecified sqrtPriceLimitX96 : Int)
    (h : (calculateSwap pr prov fuel p ov zeroForOne amountSpecified
        sqrtPriceLimitX96).2.2 = false) :
    (calculateSwap pr prov fuel p ov zeroForOne amountSpecified
        sqrtPriceLimitX96).2.1 = p := by
  revert h
  simp only [calculateSwap]
  split
  · intro _
    rfl
  · split
    · intro _
      rfl
    · split
      · intro _
        rfl
      · split
        · rename_i e p' fetched heq
          intro h
          exact swapLoop_pool_eq_of_eq _ _ _ _ _ _ _ _ _ _ heq h
        · rename_i s' p' fetched heq
          intro h
          have hp' : p' = p := by
            refine swapLoop_pool_eq_of_eq _ _ _ _ _ _ _ _ _ _ heq ?_
            split at h
            · exact h
            · exact h
          split
          · exact hp'
          · exact hp'

/-- Pool used by the purity counterexample: sparse, with no bitmap words
known, so the first bit-scan of a simulation must fetch word 0 on
demand. -/
def c3Pool : PoolModel :=
  { liquidity := 1000, sqrt_price_x96 := 5000000000, tick := 0,
    tick_bitmap := [], tick_data := [],
    tick_spacing := 1, fee := 3000, sparse_liquidity_map := true,
    update_block := 100, archive := some [] }

set_option maxRecDepth 8000 in
/-- C3, counterexample to the claim as stated: on a sparse pool with no
known bitmap words, the simulation's first scan hits the missing-word
path and `_fetch_tick_data_at_word` stores the fetched word into the
pool's `tick_bitmap`, so the pool after the call differs from the pool
before it (and the fetch flag reports the mutation). -/
theorem calculate_swap_pure_claim_counterexample :
    (calculateSwap c7Prims trivialProvider 5 c3Pool none true 5 4295128740).2.2 = true
  ∧ (calculateSwap c7Prims trivialProvider 5 c3Pool none true 5 4295128740).2.1
      ≠ c3Pool
  ∧ (calculateSwap c7Prims trivialProvider 5 c3Pool none true 5
      4295128740).2.1.tick_bitmap = [(0, ⟨0, 100⟩)] := by
  decide

set_option maxRecDepth 8000 in
/-- C3, witness for the amended theorem: the same simulation on a
non-sparse pool whose word is already known performs no fetch and
returns the pool unchanged. -/
theorem calculate_swap_pure_amended_witness :
    (calculateSwap c7Prims trivialProvider 5 c7Pool none true 5 4295128740).2.2 = false
  ∧ (calculateSwap c7Prims trivialProvider 5 c7Pool none true 5 4295128740).2.1
      = c7Pool :=
  ⟨by decide,
   calculate_swap_pure_amended c7Prims trivialProvider 5 c7Pool none true 5 4295128740
     (by decide)⟩

/-- C2: whenever a simulation step's resulting sqrt price lands exactly
on the candidate tick's sqrt price and that tick is initialized, the
iteration succeeds with the working liquidity changed by exactly that
tick's recorded `liquidityNet` (negated when the trade direction is
price-decreasing, `zero_for_one`), read from that tick's `tick_data`
entry and no other, and the working tick set to candidate tick − 1 when
price-decreasing, else to the candidate tick. -/
theorem swap_iteration_tick_crossing (pr : SwapPrims) (prov : ChainProvider)
    (p : PoolModel) (ov : Option PoolSnapshot) (zeroForOne exactInput : Bool)
    (limit : Int) (s : SwapState) (tn : Int) (info : UniswapV3LiquidityAtTick)
    (rc : Int × Int) (liq : Int)
    (hscan : nextInitializedTickWithinOneWord
        (match ov with | some o => o.tick_bitmap | none => p.tick_bitmap)
        s.tick p.tick_spacing zeroForOne = .ok (tn, true))
    (hprice : (computeSwapStep pr s.sqrt_price_x96
        (swapTarget pr zeroForOne (clampTick tn) limit) s.liquidity
        s.amount_specified_remaining p.fee).sqrtPriceNextX96
      = pr.getSqrtPriceAtTick (clampTick tn))
    (hdata : kvLookup (match ov with | some o => o.tick_data | none => p.tick_data)
        (clampTick tn) = some info)
    (hupd : stepUpdates exactInput s (computeSwapStep pr s.sqrt_price_x96
        (swapTarget pr zeroForOne (clampTick tn) limit) s.liquidity
        s.amount_specified_remaining p.fee) = .ok rc)
    (hadd : addDelta s.liquidity
        (if zeroForOne then -info.liquidityNet else info.liquidityNet) = .ok liq) :
    swapIteration pr prov p ov zeroForOne exactInput limit s
      = .ok (.step ⟨rc.1, rc.2, pr.getSqrtPriceAtTick (clampTick tn),
          (if zeroForOne then clampTick tn - 1 else clampTick tn), liq⟩)
  ∧ liq = s.liquidity
      + (if zeroForOne then -info.liquidityNet else info.liquidityNet) := by
  constructor
  · simp only [swapIteration]
    rw [hscan]
    dsimp only
    rw [hupd]
    dsimp only
    rw [if_pos hprice]
    simp only [eq_self_iff_true, if_true]
    rw [hdata]
    dsimp only
    rw [hadd]
    rw [hprice]
  · exact addDelta_ok_eq _ _ _ hadd

/-- Pool used by the tick-crossing witness: one initialized tick 0 (bit
0 of word 0 set) with recorded net liquidity 7. -/
def c2Pool : PoolModel :=
  { liquidity := 100, sqrt_price_x96 := 5000000000, tick := 0,
    tick_bitmap := [(0, ⟨1, 90⟩)], tick_data := [(0, ⟨7, 9, 90⟩)],
    tick_spacing := 1, fee := 3000, sparse_liquidity_map := false,
    update_block := 100, archive := some [] }

set_option maxRecDepth 8000 in
/-- C2, witness: crossing initialized tick 0 on a price-decreasing step
takes the liquidity from 100 to 100 − 7 = 93 and the tick to −1. -/
theorem swap_iteration_tick_crossing_witness :
    swapIteration c7Prims trivialProvider c2Pool none true true 4295128740
        ⟨5, 0, 5000000000, 0, 100⟩
      = .ok (.step ⟨5, 0, 4295128740, -1, 93⟩)
  ∧ (93 : Int) = 100 + -(7 : Int) :=
  have h := swap_iteration_tick_crossing c7Prims trivialProvider c2Pool none true true
    4295128740 ⟨5, 0, 5000000000, 0, 100⟩ 0 ⟨7, 9, 90⟩ (5, 0) 93
    (by decide) (by decide) (by decide) (by decide) (by decide)
  ⟨h.1, h.2⟩
